import Mathlib

/-!
A verification development for the SotA save-game editor core (`game_data.rs`).

The Rust source is shallowly embedded:
* raw text is `List Char` (Rust `&str`, with char positions standing for the
  byte positions of valid UTF-8);
* `serde_json::Value` is the inductive `JVal`, with JSON objects as key/value
  lists in insertion order and JSON numbers split into an integer variant
  (serde's `PosInt`/`NegInt`) and a `Rat` variant modelling `f64` exactly
  (float rounding is abstracted away; no claim exercises it);
* fallible operations (including Rust panics: `unwrap`, failed `assert!`,
  `Value` index panics) return `Option`/`Except`;
* file I/O is dropped: `load` becomes `loadText` on the file's text and
  `store`/`store_as` become `storeText`, returning the text that would be
  written.
-/

set_option maxRecDepth 20000

/-! ## Substring search (`str::find`) -/

/-- Embedding of Rust `str::find(&str)`: index of the first occurrence of
`pat` in `text`, where an occurrence at `i` means `pat` is a prefix of
`text.drop i`. -/
def findSub : List Char → List Char → Option Nat
  | text, pat =>
    match text with
    | [] => if pat.isPrefixOf [] then some 0 else none
    | c :: rest =>
      if pat.isPrefixOf (c :: rest) then some 0
      else (findSub rest pat).map (· + 1)

/-- `pat` occurs in `text` at position `i`. -/
def occursAt (pat text : List Char) (i : Nat) : Prop :=
  pat <+: text.drop i

/-- `i` is the position of the first occurrence of `pat` in `text`. -/
def firstOccurAt (pat text : List Char) (i : Nat) : Prop :=
  occursAt pat text i ∧ ∀ j < i, ¬ occursAt pat text j

theorem isPrefixOf_eq_false_of_not {p l : List Char} (h : ¬ p <+: l) :
    p.isPrefixOf l = false := by
  cases hx : p.isPrefixOf l
  · rfl
  · exact absurd (List.isPrefixOf_iff_prefix.mp hx) h

theorem findSub_eq_some_iff {text pat : List Char} {i : Nat} :
    findSub text pat = some i ↔ firstOccurAt pat text i := by
  unfold firstOccurAt occursAt
  induction text generalizing i with
  | nil =>
    by_cases hp : pat <+: ([] : List Char)
    · have hb : pat.isPrefixOf ([] : List Char) = true :=
        List.isPrefixOf_iff_prefix.mpr hp
      rw [findSub, hb]
      simp only [List.drop_nil, if_true]
      constructor
      · intro h
        have : i = 0 := by
          have := Option.some_injective _ h
          omega
        subst this
        exact ⟨hp, by omega⟩
      · rintro ⟨-, h2⟩
        rcases Nat.eq_zero_or_pos i with rfl | hi
        · rfl
        · exact absurd hp (h2 0 hi)
    · rw [findSub, isPrefixOf_eq_false_of_not hp]
      simp only [List.drop_nil, Bool.false_eq_true, if_false]
      constructor
      · intro h
        simp at h
      · rintro ⟨h1, -⟩
        exact absurd h1 hp
  | cons c rest ih =>
    by_cases hp : pat <+: (c :: rest)
    · have hb : pat.isPrefixOf (c :: rest) = true := List.isPrefixOf_iff_prefix.mpr hp
      rw [findSub, hb]
      simp only [if_true]
      constructor
      · intro h
        have : i = 0 := by
          have := Option.some_injective _ h
          omega
        subst this
        exact ⟨by simpa using hp, by omega⟩
      · rintro ⟨-, h2⟩
        rcases Nat.eq_zero_or_pos i with rfl | hi
        · rfl
        · exact absurd (by simpa using hp) (h2 0 hi)
    · rw [findSub, isPrefixOf_eq_false_of_not hp]
      simp only [Bool.false_eq_true, if_false]
      constructor
      · intro h
        rcases Option.map_eq_some'.mp h with ⟨i', hi', hEq⟩
        have hEq' : i' + 1 = i := hEq
        subst hEq'
        rcases (ih (i := i')).mp hi' with ⟨h1, h2⟩
        refine ⟨by simpa using h1, ?_⟩
        intro j hj
        cases j with
        | zero => simpa using hp
        | succ j' =>
          have := h2 j' (by omega)
          simpa using this
      · rintro ⟨h1, h2⟩
        cases i with
        | zero => exact absurd (by simpa using h1) hp
        | succ i' =>
          refine Option.map_eq_some'.mpr ⟨i', (ih (i := i')).mpr ⟨by simpa using h1, ?_⟩, rfl⟩
          intro j hj
          have := h2 (j + 1) (by omega)
          simpa using this

theorem findSub_eq_none_iff {text pat : List Char} :
    findSub text pat = none ↔ ∀ j, ¬ occursAt pat text j := by
  constructor
  · intro h
    induction text with
    | nil =>
      intro j hj
      simp only [occursAt, List.drop_nil] at hj
      have hb : pat.isPrefixOf ([] : List Char) = true :=
        List.isPrefixOf_iff_prefix.mpr hj
      rw [findSub, hb] at h
      simp at h
    | cons c rest ih =>
      intro j hj
      by_cases hp : pat <+: (c :: rest)
      · rw [findSub, List.isPrefixOf_iff_prefix.mpr hp] at h
        simp at h
      · rw [findSub, isPrefixOf_eq_false_of_not hp] at h
        simp only [Bool.false_eq_true, if_false, Option.map_eq_none'] at h
        cases j with
        | zero => exact hp (by simpa [occursAt] using hj)
        | succ j' => exact ih h j' (by simpa [occursAt] using hj)
  · intro h
    rcases hx : findSub text pat with - | i
    · rfl
    · exact absurd (findSub_eq_some_iff.mp hx).1 (h i)

theorem occursAt_length_le {pat text : List Char} {i : Nat} (hne : pat ≠ [])
    (h : occursAt pat text i) : i + pat.length ≤ text.length := by
  unfold occursAt at h
  have h1 : pat.length ≤ text.length - i := by
    have := h.length_le
    simpa [List.length_drop] using this
  have h2 : i < text.length := by
    by_contra hc
    have : text.drop i = [] := List.drop_eq_nil_of_le (by omega)
    rw [this] at h
    exact hne (List.prefix_nil.mp h)
  omega

theorem findSub_bound {text pat : List Char} {i : Nat} (hne : pat ≠ [])
    (h : findSub text pat = some i) : i + pat.length ≤ text.length :=
  occursAt_length_le hne (findSub_eq_some_iff.mp h).1

theorem prefix_append_iff_of_le {pat u : List Char} (x : List Char)
    (hl : pat.length ≤ u.length) : pat <+: u ++ x ↔ pat <+: u := by
  constructor
  · intro h
    have := List.prefix_iff_eq_take.mp h
    rw [List.take_append_of_le_length hl] at this
    exact List.prefix_iff_eq_take.mpr this
  · intro h
    exact h.trans (List.prefix_append u x)

theorem occursAt_append_iff {pat u : List Char} (x : List Char) {j : Nat}
    (h : j + pat.length ≤ u.length) : occursAt pat (u ++ x) j ↔ occursAt pat u j := by
  unfold occursAt
  rw [List.drop_append_of_le_length (by omega)]
  exact prefix_append_iff_of_le x (by simp [List.length_drop]; omega)

theorem findSub_append_of_bounded {u pat : List Char} {i : Nat} (x : List Char)
    (h : findSub u pat = some i) (hb : i + pat.length ≤ u.length) :
    findSub (u ++ x) pat = some i := by
  rcases findSub_eq_some_iff.mp h with ⟨h1, h2⟩
  refine findSub_eq_some_iff.mpr ⟨?_, ?_⟩
  · exact (occursAt_append_iff x hb).mpr h1
  · intro j hj hocc
    exact h2 j hj ((occursAt_append_iff x (by omega)).mp hocc)

theorem not_occursAt_of_head_notMem {c : Char} {pat' u v : List Char} {j : Nat}
    (hc : c ∉ u) (hj : j < u.length) : ¬ occursAt (c :: pat') (u ++ v) j := by
  intro h
  unfold occursAt at h
  have hhead : ((u ++ v).drop j).head? = some c := by
    rcases h with ⟨t, ht⟩
    rw [← ht]
    rfl
  rw [List.head?_drop] at hhead
  have hj' : (u ++ v)[j]? = u[j]? := List.getElem?_append_left hj
  rw [hj'] at hhead
  have : u[j] = c := by
    have := List.getElem?_eq_getElem hj
    rw [this] at hhead
    exact Option.some_injective _ hhead
  exact hc (this ▸ List.getElem_mem hj)

theorem findSub_append_self {c : Char} {pat' u : List Char} (tail : List Char)
    (hc : c ∉ u) : findSub (u ++ ((c :: pat') ++ tail)) (c :: pat') = some u.length := by
  refine findSub_eq_some_iff.mpr ⟨?_, ?_⟩
  · unfold occursAt
    rw [List.drop_left]
    exact List.prefix_append _ _
  · intro j hj
    exact not_occursAt_of_head_notMem hc hj

/-! ## JSON values (`serde_json::Value`)

Objects are key/value lists; `serde_json`'s map is a `BTreeMap` iterated in
sorted key order, which the list model renders as insertion order.  Every
concrete payload in this file has its keys already sorted, so the two agree
on everything the theorems mention.  Numbers keep serde's split: `num` for
the `u64`/`i64` integer variants (the embedded `Int` always lies in
`[-2^63, 2^64)`), `fnum` for `f64` (modelled exactly over `Rat`). -/

inductive JVal where
  | null
  | bool (b : Bool)
  | num (n : Int)
  | fnum (q : Rat)
  | str (s : String)
  | arr (elems : List JVal)
  | obj (fields : List (String × JVal))

/-- First-match association-list lookup (`BTreeMap::get` observed through the
unique-keys invariant every value in this development maintains). -/
def lookupField : List (String × JVal) → String → Option JVal
  | [], _ => none
  | (k', v) :: rest, k => if k' = k then some v else lookupField rest k

/-- `Value::get(key)`: `Some` only on objects. -/
def jget (v : JVal) (k : String) : Option JVal :=
  match v with
  | .obj fields => lookupField fields k
  | _ => none

/-- Insert/replace a key (`BTreeMap::insert` observed through `get`). -/
def setAssoc : List (String × JVal) → String → JVal → List (String × JVal)
  | [], k, v => [(k, v)]
  | (k', v') :: rest, k, v =>
    if k' = k then (k, v) :: rest else (k', v') :: setAssoc rest k v

/-- `Value`'s `IndexMut` by string key (`value[key] = x`): inserts into an
object, turns `Null` into a fresh object, and panics (modelled `none`) on any
other variant. -/
def jset (v : JVal) (k : String) (x : JVal) : Option JVal :=
  match v with
  | .obj fields => some (.obj (setAssoc fields k x))
  | .null => some (.obj [(k, x)])
  | _ => none

/-- `BTreeMap::remove(key)` on an object's fields. -/
def removeField (fields : List (String × JVal)) (k : String) : List (String × JVal) :=
  fields.filter (fun p => p.1 != k)

def asObjFields : JVal → Option (List (String × JVal))
  | .obj fields => some fields
  | _ => none

/-- `Value::is_object`. -/
def jIsObj (v : JVal) : Bool :=
  (asObjFields v).isSome

def I64_MIN : Int := -(2 ^ 63)
def I64_MAX : Int := 2 ^ 63 - 1
def U64_MAX : Int := 2 ^ 64 - 1
def I32_MIN : Int := -(2 ^ 31)
def I32_MAX : Int := 2 ^ 31 - 1

/-- Digit list of a decimal string, most significant first (`None` on a
non-digit). -/
def charDigit (c : Char) : Option Nat :=
  if c.isDigit then some (c.toNat - 48) else none

def charsToNat (ds : List Char) : Nat :=
  ds.foldl (fun a c => a * 10 + (c.toNat - 48)) 0

/-- Rust `str::parse::<i64>()`: optional sign, one or more digits, value
within the `i64` range. -/
def strParseI64 (s : String) : Option Int :=
  let (neg, ds) :=
    match s.data with
    | '+' :: rest => (false, rest)
    | '-' :: rest => (true, rest)
    | rest => (false, rest)
  if ds = [] then none
  else if ds.all Char.isDigit then
    let n : Int := charsToNat ds
    let v : Int := if neg then -n else n
    if I64_MIN ≤ v ∧ v ≤ I64_MAX then some v else none
  else none

/-- The `ToI64` helper trait of `game_data.rs`: `Number::as_i64` on numbers
(integer variant within `i64`), `str::parse::<i64>().ok()` on strings,
`None` otherwise. -/
def toI64 : JVal → Option Int
  | .num n => if I64_MIN ≤ n ∧ n ≤ I64_MAX then some n else none
  | .fnum _ => none
  | .str s => strParseI64 s
  | _ => none

/-- `Number::as_u64`. -/
def asU64 : JVal → Option Nat
  | .num n => if 0 ≤ n ∧ n ≤ U64_MAX then some n.toNat else none
  | _ => none

/-- `Number::as_f64` (integer variants converted exactly, not rounded the way
`u64 as f64` rounds above `2^53`; no claim depends on that corner). -/
def asF64 : JVal → Option Rat
  | .num n => some (n : Rat)
  | .fnum q => some q
  | _ => none

/-- Rust `i64 as i32`: two's-complement truncation. -/
def i64_as_i32 (n : Int) : Int :=
  (n + 2 ^ 31) % 2 ^ 32 - 2 ^ 31

/-- Rust `f64 as i64` on in-range values: truncation toward zero.  Saturation
at the `i64` bounds and the NaN case are not modelled; no claim reaches
them. -/
def f64_as_i64 (q : Rat) : Int :=
  Int.tdiv q.num (q.den : Int)

/-! ## Decimal rendering (`i64`/`u64` `Display`, used by `format!` and by
serde's integer serialization) -/

def natToDigitsRev : Nat → Nat → List Nat
  | 0, _ => []
  | _ + 1, 0 => []
  | f + 1, n + 1 => ((n + 1) % 10) :: natToDigitsRev f ((n + 1) / 10)

def natRepr (n : Nat) : List Char :=
  if n = 0 then ['0'] else ((natToDigitsRev n n).reverse.map Nat.digitChar)

def intRepr (n : Int) : List Char :=
  if n < 0 then '-' :: natRepr (-n).toNat else natRepr n.toNat

theorem natToDigitsRev_eq_digits (f n : Nat) (h : n ≤ f) :
    natToDigitsRev f n = Nat.digits 10 n := by
  induction f generalizing n with
  | zero =>
    have : n = 0 := by omega
    subst this
    simp [natToDigitsRev]
  | succ f ih =>
    cases n with
    | zero => simp [natToDigitsRev]
    | succ m =>
      rw [natToDigitsRev, ih ((m + 1) / 10) (by
        have := Nat.div_lt_self (Nat.succ_pos m) (by norm_num : 1 < 10)
        omega)]
      rw [Nat.digits_def' (by norm_num : 1 < 10) (Nat.succ_pos m)]

theorem natRepr_eq (n : Nat) :
    natRepr n = if n = 0 then ['0'] else ((Nat.digits 10 n).reverse.map Nat.digitChar) := by
  unfold natRepr
  rw [natToDigitsRev_eq_digits n n le_rfl]

theorem digitChar_isDigit {d : Nat} (h : d < 10) : (Nat.digitChar d).isDigit = true := by
  interval_cases d <;> rfl

theorem digitChar_toNat {d : Nat} (h : d < 10) : (Nat.digitChar d).toNat - 48 = d := by
  interval_cases d <;> rfl

theorem digitChar_ne_zero_char {d : Nat} (h1 : d < 10) (h2 : d ≠ 0) :
    Nat.digitChar d ≠ '0' := by
  interval_cases d <;> simp_all <;> intro h <;> exact absurd h (by decide)

theorem natRepr_all_digits (n : Nat) : ∀ c ∈ natRepr n, c.isDigit = true := by
  rw [natRepr_eq]
  split
  · intro c hc
    simp at hc
    subst hc
    rfl
  · intro c hc
    simp only [List.mem_map, List.mem_reverse] at hc
    rcases hc with ⟨d, hd, rfl⟩
    exact digitChar_isDigit (Nat.digits_lt_base (by norm_num) hd)

theorem natRepr_ne_nil (n : Nat) : natRepr n ≠ [] := by
  rw [natRepr_eq]
  split
  · simp
  · simp only [ne_eq, List.map_eq_nil_iff, List.reverse_eq_nil_iff]
    exact Nat.digits_ne_nil_iff_ne_zero.mpr (by assumption)

theorem charsToNat_step (acc : Nat) (ds : List Char) :
    List.foldl (fun a c => a * 10 + (c.toNat - 48)) acc ds =
      acc * 10 ^ ds.length + charsToNat ds := by
  induction ds generalizing acc with
  | nil => simp [charsToNat]
  | cons c rest ih =>
    simp only [List.foldl_cons, List.length_cons, charsToNat]
    rw [ih (acc * 10 + (c.toNat - 48)), ih (0 * 10 + (c.toNat - 48))]
    ring

theorem charsToNat_natRepr (n : Nat) : charsToNat (natRepr n) = n := by
  rw [natRepr_eq]
  split
  · subst ‹n = 0›
    rfl
  · -- charsToNat over most-significant-first digit characters is ofDigits
    have key : ∀ ds : List Nat, (∀ d ∈ ds, d < 10) →
        charsToNat (ds.reverse.map Nat.digitChar) = Nat.ofDigits 10 ds := by
      intro ds hds
      induction ds with
      | nil => rfl
      | cons d rest ih =>
        have hd : d < 10 := hds d (List.mem_cons_self d rest)
        have hrest : ∀ x ∈ rest, x < 10 := fun x hx => hds x (List.mem_cons_of_mem d hx)
        simp only [List.reverse_cons, List.map_append, List.map_cons, List.map_nil]
        unfold charsToNat
        rw [List.foldl_append]
        have hfold := ih hrest
        unfold charsToNat at hfold
        rw [hfold]
        simp only [List.foldl_cons, List.foldl_nil, Nat.ofDigits_cons]
        rw [digitChar_toNat hd]
        ring
    rw [key (Nat.digits 10 n) (fun d hd => Nat.digits_lt_base (by norm_num) hd),
      Nat.ofDigits_digits]

/-! ## JSON serialization (`Value::to_string`, compact) -/

def hexChar (n : Nat) : Char :=
  if n < 10 then Nat.digitChar n
  else if n = 10 then 'a' else if n = 11 then 'b' else if n = 12 then 'c'
  else if n = 13 then 'd' else if n = 14 then 'e' else 'f'

/-- serde's string escaping: `"`, `\`, the short control escapes, and
`\u00XX` for the remaining control characters. -/
def escChar (c : Char) : List Char :=
  if c = '"' then ['\\', '"']
  else if c = '\\' then ['\\', '\\']
  else if c = '\x08' then ['\\', 'b']
  else if c = '\x0c' then ['\\', 'f']
  else if c = '\n' then ['\\', 'n']
  else if c = '\r' then ['\\', 'r']
  else if c = '\t' then ['\\', 't']
  else if c.toNat < 32 then
    ['\\', 'u', '0', '0', hexChar (c.toNat / 16), hexChar (c.toNat % 16)]
  else [c]

def escapeChars : List Char → List Char
  | [] => []
  | c :: rest => escChar c ++ escapeChars rest

def serStr (s : String) : List Char :=
  '"' :: escapeChars s.data ++ ['"']

/-- Decimal expansion of a fractional part (stand-in for ryu's shortest
round-trip form; only the integer-free corners differ and no claim touches
them). -/
def fracDigits : Nat → Rat → List Char
  | 0, _ => []
  | f + 1, q =>
    if q = 0 then []
    else
      let q10 := q * 10
      Nat.digitChar (Rat.floor q10).toNat :: fracDigits f (q10 - Rat.floor q10)

def fnumRepr (q : Rat) : List Char :=
  let a := if q < 0 then |q| else q
  let sign : List Char := if q < 0 then ['-'] else []
  let ip := Rat.floor a
  let frac := a - ip
  sign ++ natRepr ip.toNat ++ '.' :: (if frac = 0 then ['0'] else fracDigits 17 frac)

mutual

def serialize : JVal → List Char
  | .null => "null".data
  | .bool true => "true".data
  | .bool false => "false".data
  | .num n => intRepr n
  | .fnum q => fnumRepr q
  | .str s => serStr s
  | .arr es => '[' :: serElems es ++ [']']
  | .obj fs => '\x7b' :: serFields fs ++ ['\x7d']

def serElems : List JVal → List Char
  | [] => []
  | [v] => serialize v
  | v :: vs => serialize v ++ ',' :: serElems vs

def serFields : List (String × JVal) → List Char
  | [] => []
  | [(k, v)] => serStr k ++ ':' :: serialize v
  | (k, v) :: fs => serStr k ++ ':' :: serialize v ++ ',' :: serFields fs

end

/-! ## JSON parsing (`serde_json::from_str`)

Modelled from the spec: the `RecordCodec` component ("parses a byte range as
a JSON value (arbitrary object/array/scalar nesting); on parse failure
returns a diagnostic failure" / "serializes a JSON value to compact text")
is `serde_json`, a dependency whose sources are not part of this repository.
The parser below follows the JSON grammar serde implements; surrogate-pair
`\u` escapes are the one unsupported corner (rejected instead of combined),
and no claim reaches it.  Recursion is by explicit fuel so that every run of
the parser reduces definitionally. -/

def isJsonWs (c : Char) : Bool :=
  c = ' ' || c = '\t' || c = '\n' || c = '\r'

def skipWs (cs : List Char) : List Char :=
  cs.dropWhile isJsonWs

def hexVal (c : Char) : Option Nat :=
  if c.isDigit then some (c.toNat - 48)
  else if 'a' ≤ c ∧ c ≤ 'f' then some (c.toNat - 87)
  else if 'A' ≤ c ∧ c ≤ 'F' then some (c.toNat - 55)
  else none

def parseStrAux : Nat → List Char → List Char → Option (String × List Char)
  | 0, _, _ => none
  | f + 1, acc, cs =>
    match cs with
    | [] => none
    | '"' :: rest => some (String.mk acc.reverse, rest)
    | '\\' :: rest =>
      match rest with
      | [] => none
      | 'u' :: rest' =>
        match rest' with
        | h1 :: h2 :: h3 :: h4 :: rest2 =>
          match hexVal h1, hexVal h2, hexVal h3, hexVal h4 with
          | some a, some b, some c, some d =>
            let code := ((a * 16 + b) * 16 + c) * 16 + d
            if code < 0xd800 ∨ 0xe000 ≤ code then
              parseStrAux f (Char.ofNat code :: acc) rest2
            else none
          | _, _, _, _ => none
        | _ => none
      | e :: rest' =>
        if e = '"' then parseStrAux f ('"' :: acc) rest'
        else if e = '\\' then parseStrAux f ('\\' :: acc) rest'
        else if e = '/' then parseStrAux f ('/' :: acc) rest'
        else if e = 'b' then parseStrAux f ('\x08' :: acc) rest'
        else if e = 'f' then parseStrAux f ('\x0c' :: acc) rest'
        else if e = 'n' then parseStrAux f ('\n' :: acc) rest'
        else if e = 'r' then parseStrAux f ('\r' :: acc) rest'
        else if e = 't' then parseStrAux f ('\t' :: acc) rest'
        else none
    | c :: rest =>
      if c.toNat < 32 then none else parseStrAux f (c :: acc) rest

/-- Parse the exponent suffix and deliver the finished number. -/
def finishNumber (neg : Bool) (ip : List Char) (fp : Option (List Char))
    (cs : List Char) : Option (JVal × List Char) :=
  let mkNum (cs' : List Char) (e : Option (Bool × List Char)) :
      Option (JVal × List Char) :=
    match fp, e with
    | none, none =>
      -- plain integer: serde keeps it as a `u64`/`i64` when it fits
      let n : Int := charsToNat ip
      let v : Int := if neg then -n else n
      if I64_MIN ≤ v ∧ v ≤ U64_MAX then some (.num v, cs')
      else some (.fnum (v : Rat), cs')
    | _, _ =>
      let fdigs := fp.getD []
      let mant : Rat := (charsToNat ip : Rat) + (charsToNat fdigs : Rat) / (10 : Rat) ^ fdigs.length
      let mant := if neg then -mant else mant
      let expv : Int :=
        match e with
        | none => 0
        | some (eneg, eds) => if eneg then -(charsToNat eds : Int) else (charsToNat eds : Int)
      some (.fnum (mant * (10 : Rat) ^ expv), cs')
  match cs with
  | 'e' :: cs1 | 'E' :: cs1 =>
    let (eneg, cs2) :=
      match cs1 with
      | '+' :: r => (false, r)
      | '-' :: r => (true, r)
      | r => (false, r)
    let (eds, cs3) := cs2.span Char.isDigit
    if eds = [] then none else mkNum cs3 (some (eneg, eds))
  | _ => mkNum cs none

def parseNumber (cs : List Char) : Option (JVal × List Char) :=
  let (neg, cs1) := if cs.head? = some '-' then (true, cs.tail) else (false, cs)
  let (ip, cs2) := cs1.span Char.isDigit
  if ip = [] then none
  else if ip.head? = some '0' ∧ ip.length ≠ 1 then none
  else
    match cs2 with
    | '.' :: cs3 =>
      let (fp, cs4) := cs3.span Char.isDigit
      if fp = [] then none else finishNumber neg ip (some fp) cs4
    | _ => finishNumber neg ip none cs2

def parseElems (pv : List Char → Option (JVal × List Char)) :
    Nat → List Char → List JVal → Option (List JVal × List Char)
  | 0, _, _ => none
  | f + 1, cs, acc =>
    match pv cs with
    | none => none
    | some (v, r) =>
      match skipWs r with
      | ',' :: r2 => parseElems pv f (skipWs r2) (v :: acc)
      | ']' :: r2 => some ((v :: acc).reverse, r2)
      | _ => none

def parseFields (pv : List Char → Option (JVal × List Char)) :
    Nat → List Char → List (String × JVal) → Option (List (String × JVal) × List Char)
  | 0, _, _ => none
  | f + 1, cs, acc =>
    match cs with
    | '"' :: rest =>
      match parseStrAux (rest.length + 1) [] rest with
      | none => none
      | some (k, r1) =>
        match skipWs r1 with
        | ':' :: r2 =>
          match pv (skipWs r2) with
          | none => none
          | some (v, r3) =>
            match skipWs r3 with
            | ',' :: r4 => parseFields pv f (skipWs r4) (setAssoc acc k v)
            | '\x7d' :: r4 => some (setAssoc acc k v, r4)
            | _ => none
        | _ => none
    | _ => none

def parseValue : Nat → List Char → Option (JVal × List Char)
  | 0, _ => none
  | f + 1, cs =>
    match cs with
    | [] => none
    | c :: rest =>
      if c = 'n' then
        match rest with
        | 'u' :: 'l' :: 'l' :: r => some (.null, r)
        | _ => none
      else if c = 't' then
        match rest with
        | 'r' :: 'u' :: 'e' :: r => some (.bool true, r)
        | _ => none
      else if c = 'f' then
        match rest with
        | 'a' :: 'l' :: 's' :: 'e' :: r => some (.bool false, r)
        | _ => none
      else if c = '"' then
        (parseStrAux (rest.length + 1) [] rest).map (fun p => (.str p.1, p.2))
      else if c = '[' then
        let r := skipWs rest
        if r.head? = some ']' then some (.arr [], r.tail)
        else (parseElems (parseValue f) (r.length + 1) r []).map (fun p => (.arr p.1, p.2))
      else if c = '\x7b' then
        let r := skipWs rest
        if r.head? = some '\x7d' then some (.obj [], r.tail)
        else (parseFields (parseValue f) (r.length + 1) r []).map (fun p => (.obj p.1, p.2))
      else if c = '-' ∨ c.isDigit then parseNumber cs
      else none

/-- `serde_json::from_str`: one value, surrounded by optional whitespace,
consuming the whole input. -/
def parseJson (cs : List Char) : Option JVal :=
  match parseValue (cs.length + 1) (skipWs cs) with
  | some (v, rest) => if skipWs rest = [] then some v else none
  | none => none

/-! ## Tagged-record locator (`collection_tag`, `record_tag`, `get_json`,
`set_json`) -/

def USER_ID : String := "000000000000000000000001"

def collection_tag (collection : String) : List Char :=
  "<collection name=\"".data ++ collection.data ++ "\">".data

def record_tag (id : String) : List Char :=
  "<record Id=\"".data ++ id.data ++ "\">".data

def record_end : List Char :=
  "</record>".data

/-- `get_json` of `game_data.rs`: find the collection tag, then the record
tag in the remaining tail, then the record-end tag; parse the text strictly
between. -/
def get_json (text : List Char) (collection id : String) : Option JVal :=
  match findSub text (collection_tag collection) with
  | none => none
  | some pos =>
    let text1 := text.drop (pos + (collection_tag collection).length)
    match findSub text1 (record_tag id) with
    | none => none
    | some pos1 =>
      let text2 := text1.drop (pos1 + (record_tag id).length)
      match findSub text2 record_end with
      | none => none
      | some pos2 => parseJson (text2.take pos2)

/-- The marker-location half of `get_json`/`set_json`: the payload region's
text, before any parsing. -/
def locatePayload (text : List Char) (collection id : String) : Option (List Char) :=
  match findSub text (collection_tag collection) with
  | none => none
  | some pos =>
    let text1 := text.drop (pos + (collection_tag collection).length)
    match findSub text1 (record_tag id) with
    | none => none
    | some pos1 =>
      let text2 := text1.drop (pos1 + (record_tag id).length)
      match findSub text2 record_end with
      | none => none
      | some pos2 => some (text2.take pos2)

/-- `set_json` of `game_data.rs`: locate the payload exactly as `get_json`
does and splice the serialized value over it, keeping the surrounding text. -/
def set_json (text : List Char) (collection id : String) (val : JVal) :
    Option (List Char) :=
  match findSub text (collection_tag collection) with
  | none => none
  | some pos =>
    let start := pos + (collection_tag collection).length
    let slice := text.drop start
    match findSub slice (record_tag id) with
    | none => none
    | some pos1 =>
      let p := pos1 + (record_tag id).length
      let slice1 := slice.drop p
      let start1 := start + p
      match findSub slice1 record_end with
      | none => none
      | some pos2 =>
        let e := start1 + pos2
        some (text.take start1 ++ serialize val ++ text.drop e)

/-- `find_date`: scan the skills object for the first entry exposing a `"t"`
field. -/
def findDateFields : List (String × JVal) → Option JVal
  | [] => none
  | (_, v) :: rest =>
    match jget v "t" with
    | some d => some d
    | none => findDateFields rest

def find_date (v : JVal) : Option JVal :=
  match v with
  | .obj fields => findDateFields fields
  | _ => none

/-- `get_avatar_id`: the `"dc"` string of the fixed-id `User` record. -/
def get_avatar_id (text : List Char) : Option String :=
  match get_json text "User" USER_ID with
  | none => none
  | some j =>
    match jget j "dc" with
    | some (.str id) => some id
    | _ => none

/-- `get_backpack_id`: the `"mainbp"` string of the avatar's `Character`
record. -/
def get_backpack_id (text : List Char) (avatar : String) : Option String :=
  match get_json text "Character" avatar with
  | none => none
  | some j =>
    match jget j "mainbp" with
    | some (.str id) => some id
    | _ => none

/-! ## Floor lookup (`find_min`, over `slice::binary_search`) -/

/-- `slice::binary_search` (the classic early-return formulation of its
documented contract: `Ok` at an index holding the value, `Err` at the
insertion point).  Fuel makes the recursion structural; `find_min` hands it
enough fuel for any interval. -/
def bsLoop (values : List Int) (value : Int) : Nat → Nat → Nat → Except Nat Nat
  | 0, left, _ => .error left
  | f + 1, left, right =>
    if left < right then
      let size := right - left
      let mid := left + size / 2
      let v := values.getD mid 0
      if v < value then bsLoop values value f (mid + 1) right
      else if value < v then bsLoop values value f left mid
      else .ok mid
    else .error left

/-- `find_min` of `game_data.rs`: exact match keeps its index, otherwise the
insertion point minus one, or `None` below the table's minimum. -/
def find_min (value : Int) (values : List Int) : Option Nat :=
  match bsLoop values value (values.length + 1) 0 values.length with
  | .ok idx => some idx
  | .error idx => if idx > 0 then some (idx - 1) else none

/-! ## The save document (`GameData`) -/

/-- `GameData` minus its `RwLock<PathBuf>`: the file path is file-system
state with no bearing on any claim. -/
structure GameData where
  text : List Char
  avatar : String
  backpack : String
  character : JVal
  inventory : JVal
  gold : JVal
  date : JVal

/-- `GameData::load`, after `fs::read_to_string` has produced `text`.  Each
validation step aborts with its distinct message, in the source's order. -/
def loadText (text : List Char) : Except String GameData :=
  match get_avatar_id text with
  | none => .error "Unable to determine the current avatar"
  | some avatar =>
    match get_json text "CharacterSheet" avatar with
    | none => .error "Unable to find character sheet"
    | some character =>
      if jIsObj character then
        match get_backpack_id text avatar with
        | none => .error "Unable to find the avatar's backpack"
        | some backpack =>
          match get_json text "ItemStore" backpack with
          | none => .error "Unable to find inventory"
          | some inventory =>
            if jIsObj inventory then
              match get_json text "UserGold" USER_ID with
              | none => .error "Unable to find user gold"
              | some gold =>
                if jIsObj gold then
                  match (jget character "ae").bind toI64 with
                  | none => .error "Unable to parse adventurer experience"
                  | some _ =>
                    match jget character "sk2" with
                    | none => .error "Unable to find skills"
                    | some skills =>
                      if jIsObj skills then
                        match find_date skills with
                        | none => .error "Unable to parse the date/time"
                        | some date =>
                          .ok { text := text, avatar := avatar,
                                backpack := backpack, character := character,
                                inventory := inventory, gold := gold,
                                date := date }
                      else .error "Error reading skills"
                else .error "Error reading user gold"
            else .error "Error reading inventory"
      else .error "Error reading character sheet"

/-- `GameData::store_as` up to the file write: the output text, with the
three regions replaced in sequence, each located against the text containing
the prior replacements. -/
def storeText (d : GameData) : Option (List Char) :=
  match set_json d.text "CharacterSheet" d.avatar d.character with
  | none => none
  | some t1 =>
    match set_json t1 "ItemStore" d.backpack d.inventory with
    | none => none
    | some t2 =>
      match set_json t2 "UserGold" USER_ID d.gold with
      | none => none
      | some t3 => some t3

/-! ## Accessors -/

/-- `GameData::get_gold`: `gold["g"]`, via `ToI64`, cast `as i32`. -/
def get_gold (d : GameData) : Option Int :=
  match jget d.gold "g" with
  | none => none
  | some g =>
    match toI64 g with
    | none => none
    | some n => some (i64_as_i32 n)

/-- `GameData::set_gold` (the `i32` argument is an `Int` in `[I32_MIN,
I32_MAX]`; the `Value` index panic on a non-object gold section is the
`none` case). -/
def set_gold (d : GameData) (gold : Int) : Option GameData :=
  match jset d.gold "g" (.num gold) with
  | none => none
  | some g => some { d with gold := g }

/-- Decimal key of a skill id (`format!("{}", id)`). -/
def natKey (id : Nat) : String :=
  String.mk (natRepr id)

/-- Free function `get_skill_lvl(skills, id, mul)`.  The experience table
(`util::SKILL_EXP`) is a parameter; see `TableOk`. -/
def get_skill_exp (skills : JVal) (id : Nat) : Option Int :=
  match jget skills (natKey id) with
  | none => none
  | some skill =>
    match jget skill "x" with
    | none => none
    | some exp => toI64 exp

def get_skill_lvl (table : List Int) (skills : JVal) (id : Nat) (mul : Rat) :
    Option Int :=
  match get_skill_exp skills id with
  | none => none
  | some exp =>
    let e := f64_as_i64 ((exp : Rat) / mul)
    match find_min e table with
    | none => none
    | some idx => some ((idx : Int) + 1)

/-- Method `GameData::get_skill_lvl` (its `unwrap` of the skills object is
the `none` case). -/
def get_skill_lvl_m (table : List Int) (d : GameData) (id : Nat) (mul : Rat) :
    Option Int :=
  match jget d.character "sk2" with
  | none => none
  | some skills => get_skill_lvl table skills id mul

/-- `GameData::set_skill_exp`: update an existing entry's `"x"` or create
`{"m": 0, "t": <template>, "x": exp}`. -/
def set_skill_exp (d : GameData) (id : Nat) (exp : Int) : Option GameData :=
  match jget d.character "sk2" with
  | none => none
  | some skills =>
    match jget skills (natKey id) with
    | some skill =>
      match jset skill "x" (.num exp) with
      | none => none
      | some skill' =>
        match jset skills (natKey id) skill' with
        | none => none
        | some skills' =>
          match jset d.character "sk2" skills' with
          | none => none
          | some ch => some { d with character := ch }
    | none =>
      let entry : JVal := .obj [("m", .num 0), ("t", d.date), ("x", .num exp)]
      match jset skills (natKey id) entry with
      | none => none
      | some skills' =>
        match jset d.character "sk2" skills' with
        | none => none
        | some ch => some { d with character := ch }

/-- `GameData::remove_skill`. -/
def remove_skill (d : GameData) (id : Nat) : Option GameData :=
  match jget d.character "sk2" with
  | none => none
  | some skills =>
    match asObjFields skills with
    | none => none
    | some fields =>
      match jset d.character "sk2" (.obj (removeField fields (natKey id))) with
      | none => none
      | some ch => some { d with character := ch }

/-- `GameData::set_skill_lvl`: `assert!((0..=200).contains(&lvl))` (failure
is the `none` case), delete on level 0, otherwise write
`(table[lvl-1] as f64 * mul) as i64`. -/
def set_skill_lvl (table : List Int) (d : GameData) (id : Nat) (lvl : Int)
    (mul : Rat) : Option GameData :=
  if 0 ≤ lvl ∧ lvl ≤ 200 then
    if lvl = 0 then remove_skill d id
    else set_skill_exp d id (f64_as_i64 ((table.getD (lvl.toNat - 1) 0 : Rat) * mul))
  else none

/-- `GameData::get_adv_exp` (`unwrap`s are `none`). -/
def get_adv_exp (d : GameData) : Option Int :=
  (jget d.character "ae").bind toI64

def get_prd_exp (d : GameData) : Option Int :=
  (jget d.character "pe").bind toI64

/-- `GameData::get_adv_lvl`: `find_min(exp, LEVEL_EXP).unwrap() as i32 + 1`
with the table (`util::LEVEL_EXP`) a parameter. -/
def get_adv_lvl (table : List Int) (d : GameData) : Option Int :=
  match get_adv_exp d with
  | none => none
  | some exp =>
    match find_min exp table with
    | none => none
    | some idx => some ((idx : Int) + 1)

def get_prd_lvl (table : List Int) (d : GameData) : Option Int :=
  match get_prd_exp d with
  | none => none
  | some exp =>
    match find_min exp table with
    | none => none
    | some idx => some ((idx : Int) + 1)

def set_adv_exp (d : GameData) (exp : Int) : Option GameData :=
  match jset d.character "ae" (.num exp) with
  | none => none
  | some ch => some { d with character := ch }

def set_prd_exp (d : GameData) (exp : Int) : Option GameData :=
  match jset d.character "pe" (.num exp) with
  | none => none
  | some ch => some { d with character := ch }

/-- `GameData::set_adv_lvl`: `assert!(LVL_RANGE.contains(&lvl))` then write
`LEVEL_EXP[lvl - 1]`. -/
def set_adv_lvl (table : List Int) (d : GameData) (lvl : Int) : Option GameData :=
  if 1 ≤ lvl ∧ lvl ≤ 200 then set_adv_exp d (table.getD (lvl.toNat - 1) 0)
  else none

def set_prd_lvl (table : List Int) (d : GameData) (lvl : Int) : Option GameData :=
  if 1 ≤ lvl ∧ lvl ≤ 200 then set_prd_exp d (table.getD (lvl.toNat - 1) 0)
  else none

/-! ## Inventory read projection -/

structure Durability where
  minor : Rat
  major : Rat

structure Item where
  id : String
  name : String
  cnt : Nat
  dur : Option Durability
  bag : Bool

/-- Index of the last `'/'` (`str::rfind('/')`). -/
def rfindSlash : List Char → Option Nat
  | [] => none
  | c :: rest =>
    match rfindSlash rest with
    | some i => some (i + 1)
    | none => if c = '/' then some 0 else none

/-- `get_name`: the substring after the last `'/'` of the name-source
string. -/
def get_name (val : Option JVal) : Option String :=
  match val with
  | some (.str s) =>
    match rfindSlash s.data with
    | some pos => some (String.mk (s.data.drop (pos + 1)))
    | none => none
  | _ => none

/-- `Durability::new`. -/
def durNew (v : JVal) : Option Durability :=
  match (jget v "hp").bind asF64 with
  | none => none
  | some minor =>
    match (jget v "php").bind asF64 with
    | none => none
    | some major => some { minor := minor, major := major }

/-- One iteration of the `get_inventory_items` loop (`continue` on a missing
inner wrapper, name or count). -/
def projectEntry (kv : String × JVal) : Option Item :=
  match jget kv.2 "in" with
  | none => none
  | some inner =>
    match get_name (jget inner "an") with
    | none => none
    | some name =>
      match (jget inner "qn").bind asU64 with
      | none => none
      | some cnt =>
        some { id := kv.1, name := name, cnt := cnt, dur := durNew inner,
               bag := (jget inner "bag").isSome }

/-- `GameData::get_inventory_items` (the `unwrap` of the `"in"` object is the
`none` case). -/
def get_inventory_items (d : GameData) : Option (List Item) :=
  match (jget d.inventory "in").bind asObjFields with
  | none => none
  | some fields => some (fields.filterMap projectEntry)

/-! ## The experience tables -/

/-- Modelled from the spec: the two 200-entry tables (`util::LEVEL_EXP` and
`util::SKILL_EXP`, loaded with `include!` from `res/level_exp_values` and
`res/skill_exp_values`, which are absent from the sources) are "fixed
ascending sequence[s] of 200 integer thresholds".  Theorems take the table
as a parameter constrained to that shape, reading "ascending" as strictly
ascending, with entries representable in `i64` as `util.rs` declares. -/
def TableOk (t : List Int) : Prop :=
  t.length = 200 ∧ List.Sorted (· < ·) t ∧ ∀ x ∈ t, I64_MIN ≤ x ∧ x ≤ I64_MAX

/-- `i` is the greatest index of `table` whose entry does not exceed
`target`. -/
def greatestIdx (table : List Int) (target : Int) (i : Nat) : Prop :=
  i < table.length ∧ table.getD i 0 ≤ target ∧
    ∀ j, j < table.length → i < j → target < table.getD j 0

/-! ## Concrete fixtures

A minimal well-formed save text with the five consumed records; the `UserGold`
payload `{"g":1000}` is split out so the gold round-trip can vary it. -/

def userRec : List Char :=
  ("<collection name=\"User\"><record Id=\"000000000000000000000001\">\x7b\"dc\":\"AVA\"\x7d</record></collection>").data

def charRec : List Char :=
  ("<collection name=\"Character\"><record Id=\"AVA\">\x7b\"mainbp\":\"BP\"\x7d</record></collection>").data

def csRec : List Char :=
  ("<collection name=\"CharacterSheet\"><record Id=\"AVA\">\x7b\"ae\":0,\"pe\":0,\"sk2\":\x7b\"7\":\x7b\"m\":0,\"t\":5,\"x\":0\x7d\x7d\x7d</record></collection>").data

def invRec : List Char :=
  ("<collection name=\"ItemStore\"><record Id=\"BP\">\x7b\"in\":\x7b\x7d\x7d</record></collection>").data

def ugOpen : List Char :=
  ("<collection name=\"UserGold\"><record Id=\"000000000000000000000001\">").data

/-- Everything of the fixture text before the gold amount's digits. -/
def goldA : List Char :=
  userRec ++ charRec ++ csRec ++ invRec ++ ugOpen ++ ("\x7b\"g\":").data

/-- Everything of the fixture text after the gold amount's digits. -/
def goldB : List Char :=
  ("\x7d</record></collection>").data

def baseText : List Char := goldA ++ ("1000").data ++ goldB

def chVal : JVal :=
  .obj [("ae", .num 0), ("pe", .num 0),
    ("sk2", .obj [("7", .obj [("m", .num 0), ("t", .num 5), ("x", .num 0)])])]

def invVal : JVal := .obj [("in", .obj [])]

def goldVal : JVal := .obj [("g", .num 1000)]

def baseDoc : GameData :=
  { text := baseText, avatar := "AVA", backpack := "BP", character := chVal,
    inventory := invVal, gold := goldVal, date := .num 5 }

theorem loadText_baseText : loadText baseText = .ok baseDoc := rfl

theorem storeText_baseDoc : storeText baseDoc = some baseText := rfl

/-! ## `find_min` specification -/

theorem sorted_getElem_lt {values : List Int} (hs : List.Sorted (· < ·) values)
    {j k : Nat} (hjk : j < k) (hk : k < values.length) :
    values[j] < values[k] :=
  List.pairwise_iff_getElem.mp hs j k (by omega) hk hjk

theorem sorted_getD_lt {values : List Int} (hs : List.Sorted (· < ·) values)
    {j k : Nat} (hjk : j < k) (hk : k < values.length) :
    values.getD j 0 < values.getD k 0 := by
  rw [List.getD_eq_getElem values 0 (by omega), List.getD_eq_getElem values 0 hk]
  exact sorted_getElem_lt hs hjk hk

theorem sorted_getD_le {values : List Int} (hs : List.Sorted (· < ·) values)
    {j k : Nat} (hjk : j ≤ k) (hk : k < values.length) :
    values.getD j 0 ≤ values.getD k 0 := by
  rcases Nat.eq_or_lt_of_le hjk with rfl | hlt
  · exact le_refl _
  · exact le_of_lt (sorted_getD_lt hs hlt hk)

theorem bsLoop_ok_spec {values : List Int} {value : Int} :
    ∀ f lo hi i, bsLoop values value f lo hi = .ok i →
      values.getD i 0 = value ∧ lo ≤ i ∧ i < hi := by
  intro f
  induction f with
  | zero =>
    intro lo hi i h
    simp [bsLoop] at h
  | succ f ih =>
    intro lo hi i h
    rw [bsLoop] at h
    by_cases hlr : lo < hi
    · rw [if_pos hlr] at h
      by_cases h1 : values.getD (lo + (hi - lo) / 2) 0 < value
      · rw [if_pos h1] at h
        rcases ih (lo + (hi - lo) / 2 + 1) hi i h with ⟨ha, hb, hc⟩
        exact ⟨ha, by omega, hc⟩
      · rw [if_neg h1] at h
        by_cases h2 : value < values.getD (lo + (hi - lo) / 2) 0
        · rw [if_pos h2] at h
          rcases ih lo (lo + (hi - lo) / 2) i h with ⟨ha, hb, hc⟩
          exact ⟨ha, hb, by omega⟩
        · rw [if_neg h2] at h
          obtain rfl : lo + (hi - lo) / 2 = i := Except.ok.inj h
          exact ⟨by omega, by omega, by omega⟩
    · rw [if_neg hlr] at h
      simp at h

theorem bsLoop_err_spec {values : List Int} {value : Int}
    (hs : List.Sorted (· < ·) values) :
    ∀ f lo hi i, hi ≤ values.length → hi - lo < f → lo ≤ hi →
      (∀ j, j < lo → values.getD j 0 < value) →
      (∀ j, hi ≤ j → j < values.length → value < values.getD j 0) →
      bsLoop values value f lo hi = .error i →
      lo ≤ i ∧ i ≤ hi ∧
        (∀ j, j < i → values.getD j 0 < value) ∧
        (∀ j, i ≤ j → j < values.length → value < values.getD j 0) := by
  intro f
  induction f with
  | zero =>
    intro lo hi i hlen hf hlr hlo hhi h
    omega
  | succ f ih =>
    intro lo hi i hlen hf hlr hlo hhi h
    rw [bsLoop] at h
    by_cases hlt : lo < hi
    · rw [if_pos hlt] at h
      have hmidlt : lo + (hi - lo) / 2 < hi := by omega
      have hmidlen : lo + (hi - lo) / 2 < values.length := by omega
      by_cases h1 : values.getD (lo + (hi - lo) / 2) 0 < value
      · rw [if_pos h1] at h
        have hlo' : ∀ j, j < lo + (hi - lo) / 2 + 1 → values.getD j 0 < value := by
          intro j hj
          have := sorted_getD_le hs (show j ≤ lo + (hi - lo) / 2 by omega) hmidlen
          omega
        rcases ih (lo + (hi - lo) / 2 + 1) hi i hlen (by omega) (by omega) hlo' hhi h
          with ⟨ha, hb, hc, hd⟩
        exact ⟨by omega, hb, hc, hd⟩
      · rw [if_neg h1] at h
        by_cases h2 : value < values.getD (lo + (hi - lo) / 2) 0
        · rw [if_pos h2] at h
          have hhi' : ∀ j, lo + (hi - lo) / 2 ≤ j → j < values.length →
              value < values.getD j 0 := by
            intro j hj hjlen
            have := sorted_getD_le hs hj hjlen
            omega
          rcases ih lo (lo + (hi - lo) / 2) i (by omega) (by omega) (by omega) hlo hhi' h
            with ⟨ha, hb, hc, hd⟩
          exact ⟨ha, by omega, hc, hd⟩
        · rw [if_neg h2] at h
          simp at h
    · rw [if_neg hlt] at h
      obtain rfl : lo = i := Except.error.inj h
      refine ⟨le_refl _, by omega, hlo, ?_⟩
      intro j hj hjlen
      exact hhi j (by omega) hjlen

theorem greatestIdx_unique {values : List Int} {value : Int}
    (hs : List.Sorted (· < ·) values) {i i' : Nat}
    (h1 : greatestIdx values value i) (h2 : greatestIdx values value i') : i = i' := by
  rcases h1 with ⟨h1a, h1b, h1c⟩
  rcases h2 with ⟨h2a, h2b, h2c⟩
  rcases Nat.lt_trichotomy i i' with hq | hq | hq
  · have := h1c i' h2a hq
    omega
  · exact hq
  · have := h2c i h1a hq
    omega

theorem find_min_some_greatest {values : List Int} {value : Int}
    (hs : List.Sorted (· < ·) values) {i : Nat}
    (h : find_min value values = some i) : greatestIdx values value i := by
  unfold find_min at h
  rcases hx : bsLoop values value (values.length + 1) 0 values.length with idx | idx <;>
    rw [hx] at h <;> dsimp only at h
  · -- error: insertion point
    rcases bsLoop_err_spec hs (values.length + 1) 0 values.length idx le_rfl
      (by omega) (by omega) (by intro j hj; omega) (by intro j hj hjlen; omega) hx
      with ⟨ha, hb, hc, hd⟩
    split at h
    · obtain rfl : idx - 1 = i := Option.some_inj.mp h
      refine ⟨by omega, by
        have := hc (idx - 1) (by omega)
        omega, ?_⟩
      intro j hjlen hij
      exact hd j (by omega) hjlen
    · simp at h
  · -- ok: exact hit
    obtain rfl : idx = i := Option.some_inj.mp h
    rcases bsLoop_ok_spec (values.length + 1) 0 values.length idx hx with ⟨ha, hb, hc⟩
    refine ⟨hc, by omega, ?_⟩
    intro j hjlen hij
    have := sorted_getD_lt hs hij hjlen
    omega

theorem find_min_eq_some_iff {values : List Int} {value : Int}
    (hs : List.Sorted (· < ·) values) {i : Nat} :
    find_min value values = some i ↔ greatestIdx values value i := by
  constructor
  · exact find_min_some_greatest hs
  · intro hgi
    rcases hy : find_min value values with - | i'
    · exfalso
      unfold find_min at hy
      rcases hx : bsLoop values value (values.length + 1) 0 values.length with idx | idx <;>
        rw [hx] at hy <;> dsimp only at hy
      · rcases bsLoop_err_spec hs (values.length + 1) 0 values.length idx le_rfl
          (by omega) (by omega) (by intro j hj; omega) (by intro j hj hjlen; omega) hx
          with ⟨ha, hb, hc, hd⟩
        by_cases hz : idx > 0
        · rw [if_pos hz] at hy
          simp at hy
        · rcases hgi with ⟨hilen, hile, -⟩
          have := hd i (by omega) hilen
          omega
      · simp at hy
    · have hgi' := find_min_some_greatest hs hy
      have heq := greatestIdx_unique hs hgi hgi'
      subst heq
      rfl

theorem find_min_eq_none_iff {values : List Int} {value : Int}
    (hs : List.Sorted (· < ·) values) (hne : values ≠ []) :
    find_min value values = none ↔ value < values.getD 0 0 := by
  have hlen : 0 < values.length := List.length_pos.mpr hne
  constructor
  · intro h
    unfold find_min at h
    rcases hx : bsLoop values value (values.length + 1) 0 values.length with idx | idx <;>
      rw [hx] at h <;> dsimp only at h
    · rcases bsLoop_err_spec hs (values.length + 1) 0 values.length idx le_rfl
        (by omega) (by omega) (by intro j hj; omega) (by intro j hj hjlen; omega) hx
        with ⟨ha, hb, hc, hd⟩
      split at h
      · simp at h
      · exact hd 0 (by omega) hlen
    · simp at h
  · intro hlt
    rcases hy : find_min value values with - | i
    · rfl
    · exfalso
      rcases (find_min_eq_some_iff hs).mp hy with ⟨hilen, hile, -⟩
      have := sorted_getD_le hs (Nat.zero_le i) hilen
      omega

theorem find_min_exact {values : List Int} {value : Int}
    (hs : List.Sorted (· < ·) values) {i : Nat} (hi : i < values.length)
    (hv : values.getD i 0 = value) : find_min value values = some i := by
  refine (find_min_eq_some_iff hs).mpr ⟨hi, by omega, ?_⟩
  intro j hjlen hij
  have := sorted_getD_lt hs hij hjlen
  omega

/-! ## Association-map lemmas -/

theorem lookupField_setAssoc_self (fields : List (String × JVal)) (k : String) (v : JVal) :
    lookupField (setAssoc fields k v) k = some v := by
  induction fields with
  | nil => simp [setAssoc, lookupField]
  | cons kv rest ih =>
    rcases kv with ⟨k', v'⟩
    by_cases hk : k' = k
    · simp [setAssoc, hk, lookupField]
    · simp [setAssoc, hk, lookupField, ih]

theorem lookupField_setAssoc_other (fields : List (String × JVal)) {k k' : String}
    (v : JVal) (h : k' ≠ k) :
    lookupField (setAssoc fields k v) k' = lookupField fields k' := by
  have hkk : ¬ (k = k') := fun hc => h hc.symm
  induction fields with
  | nil => simp [setAssoc, lookupField, hkk]
  | cons kv rest ih =>
    rcases kv with ⟨k2, v2⟩
    by_cases hk : k2 = k
    · subst hk
      simp [setAssoc, lookupField, hkk]
    · by_cases hk2 : k2 = k'
      · subst hk2
        simp [setAssoc, hk, lookupField]
      · simp [setAssoc, hk, lookupField, hk2, ih]

theorem jget_jset_self {o o' : JVal} {k : String} {x : JVal}
    (h : jset o k x = some o') : jget o' k = some x := by
  cases o with
  | obj fields =>
    obtain rfl : JVal.obj (setAssoc fields k x) = o' := Option.some_inj.mp h
    simpa [jget] using lookupField_setAssoc_self fields k x
  | null =>
    obtain rfl : JVal.obj [(k, x)] = o' := Option.some_inj.mp h
    simp [jget, lookupField]
  | bool b => simp [jset] at h
  | num n => simp [jset] at h
  | fnum q => simp [jset] at h
  | str s => simp [jset] at h
  | arr es => simp [jset] at h

theorem jget_jset_other {o o' : JVal} {k k' : String} {x : JVal}
    (h : jset o k x = some o') (hk : k' ≠ k) : jget o' k' = jget o k' := by
  have hkk : ¬ (k = k') := fun hc => hk hc.symm
  cases o with
  | obj fields =>
    obtain rfl : JVal.obj (setAssoc fields k x) = o' := Option.some_inj.mp h
    simpa [jget] using lookupField_setAssoc_other fields x hk
  | null =>
    obtain rfl : JVal.obj [(k, x)] = o' := Option.some_inj.mp h
    simp [jget, lookupField, hkk]
  | bool b => simp [jset] at h
  | num n => simp [jset] at h
  | fnum q => simp [jset] at h
  | str s => simp [jset] at h
  | arr es => simp [jset] at h

theorem jset_some_of_obj {o : JVal} (k : String) (x : JVal) (h : jIsObj o = true) :
    ∃ o', jset o k x = some o' ∧ jIsObj o' = true := by
  cases o with
  | obj fields => exact ⟨.obj (setAssoc fields k x), rfl, rfl⟩
  | null => simp [jIsObj, asObjFields] at h
  | bool b => simp [jIsObj, asObjFields] at h
  | num n => simp [jIsObj, asObjFields] at h
  | fnum q => simp [jIsObj, asObjFields] at h
  | str s => simp [jIsObj, asObjFields] at h
  | arr es => simp [jIsObj, asObjFields] at h

theorem lookupField_removeField_self (fields : List (String × JVal)) (k : String) :
    lookupField (removeField fields k) k = none := by
  induction fields with
  | nil => simp [removeField, lookupField]
  | cons kv rest ih =>
    rcases kv with ⟨k', v'⟩
    by_cases hk : k' = k
    · subst hk
      have : removeField ((k', v') :: rest) k' = removeField rest k' := by
        simp [removeField, List.filter]
      rw [this, ih]
    · have hb : (k' != k) = true := bne_iff_ne.mpr hk
      have : removeField ((k', v') :: rest) k = (k', v') :: removeField rest k := by
        simp [removeField, List.filter, hb]
      rw [this, lookupField, if_neg hk, ih]

theorem lookupField_removeField_other (fields : List (String × JVal)) {k k' : String}
    (h : k' ≠ k) :
    lookupField (removeField fields k) k' = lookupField fields k' := by
  induction fields with
  | nil => simp [removeField, lookupField]
  | cons kv rest ih =>
    rcases kv with ⟨k2, v2⟩
    by_cases hk : k2 = k
    · subst hk
      have hne : ¬ (k2 = k') := fun hc => h hc.symm
      have : removeField ((k2, v2) :: rest) k2 = removeField rest k2 := by
        simp [removeField, List.filter]
      rw [this, ih, lookupField, if_neg hne]
    · have hb : (k2 != k) = true := bne_iff_ne.mpr hk
      have : removeField ((k2, v2) :: rest) k = (k2, v2) :: removeField rest k := by
        simp [removeField, List.filter, hb]
      rw [this, lookupField, lookupField]
      by_cases hk2 : k2 = k'
      · rw [if_pos hk2, if_pos hk2]
      · rw [if_neg hk2, if_neg hk2, ih]

/-! ## Locator characterization -/

theorem collection_tag_cons (c : String) :
    collection_tag c = '<' :: ("collection name=\"".data ++ c.data ++ "\">".data) := rfl

theorem record_tag_cons (id : String) :
    record_tag id = '<' :: ("record Id=\"".data ++ id.data ++ "\">".data) := rfl

theorem record_end_cons : record_end = '<' :: "/record>".data := rfl

theorem collection_tag_ne_nil (c : String) : collection_tag c ≠ [] := by
  rw [collection_tag_cons]
  simp

theorem record_tag_ne_nil (id : String) : record_tag id ≠ [] := by
  rw [record_tag_cons]
  simp

theorem record_end_ne_nil : record_end ≠ [] := by
  rw [record_end_cons]
  simp

theorem firstOccurAt_append {pat u : List Char} (y : List Char) {i : Nat}
    (hb : i + pat.length ≤ u.length) (h : firstOccurAt pat u i) :
    firstOccurAt pat (u ++ y) i := by
  rcases h with ⟨h1, h2⟩
  refine ⟨(occursAt_append_iff y hb).mpr h1, ?_⟩
  intro j hj hocc
  exact h2 j hj ((occursAt_append_iff y (by omega)).mp hocc)

theorem locatePayload_eq_some_iff {text : List Char} {c id : String} {p : List Char} :
    locatePayload text c id = some p ↔
      ∃ a b rest : List Char,
        text = a ++ collection_tag c ++ b ++ record_tag id ++ p ++ record_end ++ rest ∧
        firstOccurAt (collection_tag c) text a.length ∧
        firstOccurAt (record_tag id)
          (b ++ record_tag id ++ p ++ record_end ++ rest) b.length ∧
        firstOccurAt record_end (p ++ record_end ++ rest) p.length := by
  constructor
  · intro h
    unfold locatePayload at h
    rcases hct : findSub text (collection_tag c) with - | pos <;> rw [hct] at h <;>
      dsimp only at h
    · exact absurd h (by simp)
    have occ1 := findSub_eq_some_iff.mp hct
    obtain ⟨u, hu⟩ := occ1.1
    have hposle := occursAt_length_le (collection_tag_ne_nil c) occ1.1
    have htext1 : text.drop (pos + (collection_tag c).length) = u := by
      have h0 : (text.drop pos).drop (collection_tag c).length = u := by
        rw [← hu, List.drop_left]
      rw [← h0, List.drop_drop]
    rw [htext1] at h
    rcases hrt : findSub u (record_tag id) with - | pos1 <;> rw [hrt] at h <;>
      dsimp only at h
    · exact absurd h (by simp)
    have occ2 := findSub_eq_some_iff.mp hrt
    obtain ⟨w, hw⟩ := occ2.1
    have hpos1le := occursAt_length_le (record_tag_ne_nil id) occ2.1
    have htext2 : u.drop (pos1 + (record_tag id).length) = w := by
      have h0 : (u.drop pos1).drop (record_tag id).length = w := by
        rw [← hw, List.drop_left]
      rw [← h0, List.drop_drop]
    rw [htext2] at h
    rcases hre : findSub w record_end with - | pos2 <;> rw [hre] at h <;>
      dsimp only at h
    · exact absurd h (by simp)
    have occ3 := findSub_eq_some_iff.mp hre
    obtain ⟨rest, hrest⟩ := occ3.1
    have hpos2le := occursAt_length_le record_end_ne_nil occ3.1
    obtain rfl : w.take pos2 = p := Option.some_inj.mp h
    have e3 : w = w.take pos2 ++ record_end ++ rest := by
      conv_lhs => rw [← List.take_append_drop pos2 w]
      rw [← hrest]
      simp [List.append_assoc]
    have e2 : u = u.take pos1 ++ record_tag id ++ w := by
      conv_lhs => rw [← List.take_append_drop pos1 u]
      rw [← hw]
      simp [List.append_assoc]
    have e1 : text = text.take pos ++ collection_tag c ++ u := by
      conv_lhs => rw [← List.take_append_drop pos text]
      rw [← hu]
      simp [List.append_assoc]
    have hlen1 : (text.take pos).length = pos := by
      simp [List.length_take]
      omega
    have hlen2 : (u.take pos1).length = pos1 := by
      simp [List.length_take]
      omega
    have hlen3 : (w.take pos2).length = pos2 := by
      simp [List.length_take]
      omega
    refine ⟨text.take pos, u.take pos1, rest, ?_, ?_, ?_, ?_⟩
    · conv_lhs => rw [e1]
      conv_lhs => rw [e2]
      conv_lhs => rw [e3]
      simp [List.append_assoc]
    · rw [hlen1]
      exact occ1
    · have h2 := occ2
      rw [e2] at h2
      conv at h2 => rw [e3]
      rw [hlen2]
      simpa [List.append_assoc] using h2
    · have h3 := occ3
      rw [e3] at h3
      rw [hlen3]
      simpa [List.append_assoc] using h3
  · rintro ⟨a, b, rest, htext, h1, h2, h3⟩
    unfold locatePayload
    have hct : findSub text (collection_tag c) = some a.length :=
      findSub_eq_some_iff.mpr h1
    rw [hct]
    dsimp only
    have hdrop1 : text.drop (a.length + (collection_tag c).length) =
        b ++ record_tag id ++ p ++ record_end ++ rest := by
      rw [htext]
      rw [show a ++ collection_tag c ++ b ++ record_tag id ++ p ++ record_end ++ rest =
        (a ++ collection_tag c) ++ (b ++ record_tag id ++ p ++ record_end ++ rest) by
          simp [List.append_assoc]]
      rw [show a.length + (collection_tag c).length = (a ++ collection_tag c).length by
        simp]
      exact List.drop_left _ _
    rw [hdrop1]
    have hrt : findSub (b ++ record_tag id ++ p ++ record_end ++ rest) (record_tag id) =
        some b.length := findSub_eq_some_iff.mpr h2
    rw [hrt]
    dsimp only
    have hdrop2 : (b ++ record_tag id ++ p ++ record_end ++ rest).drop
        (b.length + (record_tag id).length) = p ++ record_end ++ rest := by
      rw [show b ++ record_tag id ++ p ++ record_end ++ rest =
        (b ++ record_tag id) ++ (p ++ record_end ++ rest) by simp [List.append_assoc]]
      rw [show b.length + (record_tag id).length = (b ++ record_tag id).length by simp]
      exact List.drop_left _ _
    rw [hdrop2]
    have hre : findSub (p ++ record_end ++ rest) record_end = some p.length :=
      findSub_eq_some_iff.mpr h3
    rw [hre]
    dsimp only
    rw [show p ++ record_end ++ rest = p ++ (record_end ++ rest) by
      simp [List.append_assoc]]
    rw [List.take_left]

theorem locatePayload_append {text y : List Char} {c id : String} {p : List Char}
    (h : locatePayload text c id = some p) : locatePayload (text ++ y) c id = some p := by
  rcases locatePayload_eq_some_iff.mp h with ⟨a, b, rest, htext, h1, h2, h3⟩
  have hblen : b.length + (record_tag id).length ≤
      (b ++ record_tag id ++ p ++ record_end ++ rest).length := by
    simp
  have hplen : p.length + record_end.length ≤
      (p ++ record_end ++ rest).length := by
    simp
  have halen : a.length + (collection_tag c).length ≤ text.length := by
    rw [htext]
    simp
  refine locatePayload_eq_some_iff.mpr ⟨a, b, rest ++ y, ?_, ?_, ?_, ?_⟩
  · rw [htext]
    simp [List.append_assoc]
  · exact firstOccurAt_append y halen h1
  · have := firstOccurAt_append y hblen h2
    simpa [List.append_assoc] using this
  · have := firstOccurAt_append y hplen h3
    simpa [List.append_assoc] using this

theorem get_json_eq (text : List Char) (c id : String) :
    get_json text c id = (locatePayload text c id).bind parseJson := by
  unfold get_json locatePayload
  cases findSub text (collection_tag c) with
  | none => rfl
  | some pos =>
    dsimp only
    cases findSub (text.drop (pos + (collection_tag c).length)) (record_tag id) with
    | none => rfl
    | some pos1 =>
      dsimp only
      cases findSub ((text.drop (pos + (collection_tag c).length)).drop
          (pos1 + (record_tag id).length)) record_end with
      | none => rfl
      | some pos2 => rfl

theorem set_json_frame {text : List Char} {c id : String} {v : JVal} {out : List Char}
    (h : set_json text c id v = some out) :
    ∃ n m, n ≤ m ∧ m ≤ text.length ∧
      out = text.take n ++ serialize v ++ text.drop m ∧
      locatePayload text c id = some ((text.drop n).take (m - n)) := by
  unfold set_json at h
  rcases hct : findSub text (collection_tag c) with - | pos <;> rw [hct] at h <;>
    dsimp only at h
  · exact absurd h (by simp)
  rcases hrt : findSub (text.drop (pos + (collection_tag c).length)) (record_tag id)
    with - | pos1 <;> rw [hrt] at h <;> dsimp only at h
  · exact absurd h (by simp)
  rcases hre : findSub ((text.drop (pos + (collection_tag c).length)).drop
      (pos1 + (record_tag id).length)) record_end with - | pos2 <;>
    rw [hre] at h <;> dsimp only at h
  · exact absurd h (by simp)
  obtain rfl : text.take (pos + (collection_tag c).length + (pos1 + (record_tag id).length))
      ++ serialize v ++
      text.drop (pos + (collection_tag c).length + (pos1 + (record_tag id).length) + pos2)
      = out := Option.some_inj.mp h
  have hbound := findSub_bound record_end_ne_nil hre
  have hslice : (text.drop (pos + (collection_tag c).length)).drop
      (pos1 + (record_tag id).length) =
      text.drop (pos + (collection_tag c).length + (pos1 + (record_tag id).length)) :=
    List.drop_drop _ _ _
  refine ⟨pos + (collection_tag c).length + (pos1 + (record_tag id).length),
    pos + (collection_tag c).length + (pos1 + (record_tag id).length) + pos2,
    by omega, ?_, rfl, ?_⟩
  · rw [hslice] at hbound
    have hlen : (text.drop (pos + (collection_tag c).length +
        (pos1 + (record_tag id).length))).length =
        text.length - (pos + (collection_tag c).length + (pos1 + (record_tag id).length)) :=
      List.length_drop _ _
    have hre9 : record_end.length = 9 := rfl
    omega
  · unfold locatePayload
    rw [hct]
    dsimp only
    rw [hrt]
    dsimp only
    rw [hre]
    dsimp only
    rw [hslice]
    have : pos + (collection_tag c).length + (pos1 + (record_tag id).length) + pos2 -
        (pos + (collection_tag c).length + (pos1 + (record_tag id).length)) = pos2 := by
      omega
    rw [this]

/-! ## Load inversion -/

theorem loadText_ok_inv {text : List Char} {d : GameData} (h : loadText text = .ok d) :
    d.text = text ∧
    get_avatar_id text = some d.avatar ∧
    get_json text "CharacterSheet" d.avatar = some d.character ∧
    jIsObj d.character = true ∧
    get_backpack_id text d.avatar = some d.backpack ∧
    get_json text "ItemStore" d.backpack = some d.inventory ∧
    jIsObj d.inventory = true ∧
    get_json text "UserGold" USER_ID = some d.gold ∧
    jIsObj d.gold = true ∧
    (∃ e, (jget d.character "ae").bind toI64 = some e) ∧
    ∃ sk, jget d.character "sk2" = some sk ∧ jIsObj sk = true ∧
      find_date sk = some d.date := by
  unfold loadText at h
  rcases hav : get_avatar_id text with - | avatar <;> rw [hav] at h <;> dsimp only at h
  · exact absurd h (by simp)
  rcases hcs : get_json text "CharacterSheet" avatar with - | character <;>
    rw [hcs] at h <;> dsimp only at h
  · exact absurd h (by simp)
  by_cases hco : jIsObj character = true
  swap
  · rw [if_neg hco] at h
    exact absurd h (by simp)
  rw [if_pos hco] at h
  rcases hbp : get_backpack_id text avatar with - | backpack <;> rw [hbp] at h <;>
    dsimp only at h
  · exact absurd h (by simp)
  rcases hin : get_json text "ItemStore" backpack with - | inventory <;> rw [hin] at h <;>
    dsimp only at h
  · exact absurd h (by simp)
  by_cases hio : jIsObj inventory = true
  swap
  · rw [if_neg hio] at h
    exact absurd h (by simp)
  rw [if_pos hio] at h
  rcases hgd : get_json text "UserGold" USER_ID with - | gold <;> rw [hgd] at h <;>
    dsimp only at h
  · exact absurd h (by simp)
  by_cases hgo : jIsObj gold = true
  swap
  · rw [if_neg hgo] at h
    exact absurd h (by simp)
  rw [if_pos hgo] at h
  rcases hae : (jget character "ae").bind toI64 with - | e <;> rw [hae] at h <;>
    dsimp only at h
  · exact absurd h (by simp)
  rcases hsk : jget character "sk2" with - | skills <;> rw [hsk] at h <;> dsimp only at h
  · exact absurd h (by simp)
  by_cases hso : jIsObj skills = true
  swap
  · rw [if_neg hso] at h
    exact absurd h (by simp)
  rw [if_pos hso] at h
  rcases hdt : find_date skills with - | date <;> rw [hdt] at h <;> dsimp only at h
  · exact absurd h (by simp)
  obtain rfl : (⟨text, avatar, backpack, character, inventory, gold, date⟩ : GameData)
      = d := Except.ok.inj h
  exact ⟨rfl, rfl, hcs, hco, hbp, hin, hio, rfl, hgo, ⟨e, hae⟩, skills, hsk, hso, hdt⟩

/-! ## A concrete 200-entry table for witnesses -/

def T200 : List Int := (List.range 200).map (fun n => (n : Int))

theorem T200_length : T200.length = 200 := by decide

theorem T200_sorted : List.Sorted (· < ·) T200 := by decide

theorem T200_bounds : ∀ x ∈ T200, I64_MIN ≤ x ∧ x ≤ I64_MAX := by decide

theorem T200_ok : TableOk T200 := ⟨T200_length, T200_sorted, T200_bounds⟩

/-! ## Claim C2 -/

/-- C2: for every target value and every ascending 200-entry table, `find_min`
returns the greatest index whose table entry is ≤ the target — an exact match
yields that index, no match yields the insertion point minus one (both
captured by the greatest-index characterization), and a target below the
table's first entry yields `none` — and `get_skill_lvl`'s resulting level is
always 1 plus the found index. -/
theorem claimC2_floor_lookup (table : List Int) (target : Int)
    (hlen : table.length = 200) (hsort : List.Sorted (· < ·) table) :
    (find_min target table = none ↔ target < table.getD 0 0) ∧
    (∀ i, find_min target table = some i ↔ greatestIdx table target i) ∧
    (∀ i, i < 200 → table.getD i 0 = target → find_min target table = some i) ∧
    (∀ skills id mul lvl, get_skill_lvl table skills id mul = some lvl →
      ∃ e i, get_skill_exp skills id = some e ∧
        find_min (f64_as_i64 ((e : Rat) / mul)) table = some i ∧ lvl = (i : Int) + 1) := by
  refine ⟨find_min_eq_none_iff hsort (by
      intro hc
      rw [hc] at hlen
      simp at hlen),
    fun i => find_min_eq_some_iff hsort,
    fun i hi hv => find_min_exact hsort (by omega) hv, ?_⟩
  intro skills id mul lvl h
  unfold get_skill_lvl at h
  rcases he : get_skill_exp skills id with - | e <;> rw [he] at h <;> dsimp only at h
  · exact absurd h (by simp)
  rcases hf : find_min (f64_as_i64 ((e : Rat) / mul)) table with - | i <;> rw [hf] at h <;>
    dsimp only at h
  · exact absurd h (by simp)
  exact ⟨e, i, rfl, hf, (Option.some_inj.mp h).symm⟩

/-- C2 witness: the concrete ascending table `T200` with an exact hit. -/
theorem claimC2_floor_lookup_witness :
    (T200.length = 200 ∧ List.Sorted (· < ·) T200) ∧ find_min 5 T200 = some 5 :=
  ⟨⟨T200_length, T200_sorted⟩,
    (claimC2_floor_lookup T200 5 T200_length T200_sorted).2.2.1 5 (by decide) (by decide)⟩

/-! ## Claim C5 -/

/-- C5: for every level L in 1..=200, setting the adventurer (or producer)
level writes exactly the table threshold for level L as the new experience
value, and a subsequent get returns L. -/
theorem claimC5_level_inverse (table : List Int) (ht : TableOk table) (d : GameData)
    (hch : jIsObj d.character = true) (L : Int) (hL : 1 ≤ L ∧ L ≤ 200) :
    (∃ d', set_adv_lvl table d L = some d' ∧
      jget d'.character "ae" = some (.num (table.getD (L.toNat - 1) 0)) ∧
      get_adv_lvl table d' = some L) ∧
    (∃ d', set_prd_lvl table d L = some d' ∧
      jget d'.character "pe" = some (.num (table.getD (L.toNat - 1) 0)) ∧
      get_prd_lvl table d' = some L) := by
  rcases ht with ⟨hlen, hsort, hbounds⟩
  have hidx : L.toNat - 1 < table.length := by omega
  have hmem : table.getD (L.toNat - 1) 0 ∈ table := by
    rw [List.getD_eq_getElem table 0 hidx]
    exact List.getElem_mem hidx
  have hrange := hbounds _ hmem
  have htoI64 : toI64 (.num (table.getD (L.toNat - 1) 0)) =
      some (table.getD (L.toNat - 1) 0) := by
    have hdef : toI64 (.num (table.getD (L.toNat - 1) 0)) =
        if I64_MIN ≤ table.getD (L.toNat - 1) 0 ∧ table.getD (L.toNat - 1) 0 ≤ I64_MAX
        then some (table.getD (L.toNat - 1) 0) else none := rfl
    rw [hdef, if_pos ⟨hrange.1, hrange.2⟩]
  have hfm : find_min (table.getD (L.toNat - 1) 0) table = some (L.toNat - 1) :=
    find_min_exact hsort hidx rfl
  have hL' : ((L.toNat - 1 : Nat) : Int) + 1 = L := by omega
  constructor
  · obtain ⟨ch', hset, hobj'⟩ := jset_some_of_obj "ae"
      (.num (table.getD (L.toNat - 1) 0)) hch
    refine ⟨{ d with character := ch' }, ?_, jget_jset_self hset, ?_⟩
    · unfold set_adv_lvl
      rw [if_pos hL]
      unfold set_adv_exp
      rw [hset]
    · have hexp : get_adv_exp { d with character := ch' } =
          some (table.getD (L.toNat - 1) 0) := by
        unfold get_adv_exp
        dsimp only
        rw [jget_jset_self hset, Option.some_bind]
        exact htoI64
      unfold get_adv_lvl
      rw [hexp]
      dsimp only
      rw [hfm]
      dsimp only
      rw [hL']
  · obtain ⟨ch', hset, hobj'⟩ := jset_some_of_obj "pe"
      (.num (table.getD (L.toNat - 1) 0)) hch
    refine ⟨{ d with character := ch' }, ?_, jget_jset_self hset, ?_⟩
    · unfold set_prd_lvl
      rw [if_pos hL]
      unfold set_prd_exp
      rw [hset]
    · have hexp : get_prd_exp { d with character := ch' } =
          some (table.getD (L.toNat - 1) 0) := by
        unfold get_prd_exp
        dsimp only
        rw [jget_jset_self hset, Option.some_bind]
        exact htoI64
      unfold get_prd_lvl
      rw [hexp]
      dsimp only
      rw [hfm]
      dsimp only
      rw [hL']

/-- C5 witness: level 42 on the concrete document and table. -/
theorem claimC5_level_inverse_witness :
    (TableOk T200 ∧ jIsObj baseDoc.character = true ∧ (1 : Int) ≤ 42 ∧ (42 : Int) ≤ 200) ∧
    (∃ d', set_adv_lvl T200 baseDoc 42 = some d' ∧
      jget d'.character "ae" = some (.num (T200.getD 41 0)) ∧
      get_adv_lvl T200 d' = some 42) := by
  refine ⟨⟨T200_ok, rfl, by norm_num, by norm_num⟩, ?_⟩
  have h := (claimC5_level_inverse T200 T200_ok baseDoc rfl 42
    ⟨by norm_num, by norm_num⟩).1
  exact h

/-! ## Claim C6 -/

/-- A loadable save text whose character sheet has no `"pe"` (producer
experience) field — `load` never checks it. -/
def cs6Rec : List Char :=
  ("<collection name=\"CharacterSheet\"><record Id=\"AVA\">\x7b\"ae\":0,\"sk2\":\x7b\"7\":\x7b\"m\":0,\"t\":5,\"x\":0\x7d\x7d\x7d</record></collection>").data

def ugRec : List Char :=
  ugOpen ++ ("\x7b\"g\":1000\x7d</record></collection>").data

def cx6Text : List Char := userRec ++ charRec ++ cs6Rec ++ invRec ++ ugRec

/-- C6 counterexample: `cx6Text` is accepted by `load`, and `get_adv_lvl`
succeeds on it, but `get_prd_lvl` hits its internal `unwrap` (modelled
`none`): the claim's "their internal error branches unreachable" is false,
because `load` validates `"ae"` but never `"pe"`. -/
theorem claimC6_counterexample :
    (loadText cx6Text).isOk = true ∧
    (loadText cx6Text).map (fun d => get_adv_lvl T200 d) = .ok (some 1) ∧
    (loadText cx6Text).map (fun d => get_prd_lvl T200 d) = .ok none :=
  ⟨rfl, rfl, rfl⟩

/-- C6 (amended): for every document accepted by `load`, `get_adv_lvl`
returns 1 plus the greatest index whose threshold does not exceed the stored
adventurer experience, provided that experience is at least the table's
first threshold; `get_prd_lvl` does the same provided the character sheet
additionally carries a parseable producer-experience field at least the
first threshold (neither guard is established by `load` itself). -/
theorem claimC6_level_reads_amended (table : List Int) (ht : TableOk table)
    (text : List Char) (d : GameData) (hload : loadText text = .ok d)
    (hae_min : ∀ e, get_adv_exp d = some e → table.getD 0 0 ≤ e)
    (hpe : ∃ v e, jget d.character "pe" = some v ∧ toI64 v = some e ∧
      table.getD 0 0 ≤ e) :
    (∃ (e : Int) (i : Nat), get_adv_exp d = some e ∧
      get_adv_lvl table d = some ((i : Int) + 1) ∧ greatestIdx table e i) ∧
    (∃ (e : Int) (i : Nat), get_prd_exp d = some e ∧
      get_prd_lvl table d = some ((i : Int) + 1) ∧ greatestIdx table e i) := by
  rcases ht with ⟨hlen, hsort, -⟩
  have hne : table ≠ [] := by
    intro hc
    rw [hc] at hlen
    simp at hlen
  rcases loadText_ok_inv hload with ⟨-, -, -, -, -, -, -, -, -, ⟨e, hae⟩, -⟩
  constructor
  · have hae' : get_adv_exp d = some e := hae
    have hmin := hae_min e hae'
    have hfm : ∃ i, find_min e table = some i := by
      rcases hx : find_min e table with - | i
      · have := (find_min_eq_none_iff hsort hne).mp hx
        omega
      · exact ⟨i, rfl⟩
    rcases hfm with ⟨i, hfm⟩
    refine ⟨e, i, hae', ?_, find_min_some_greatest hsort hfm⟩
    unfold get_adv_lvl
    rw [hae']
    dsimp only
    rw [hfm]
  · rcases hpe with ⟨v, e', hv, htoi, hmin⟩
    have hpe' : get_prd_exp d = some e' := by
      unfold get_prd_exp
      rw [hv, Option.some_bind]
      exact htoi
    have hfm : ∃ i, find_min e' table = some i := by
      rcases hx : find_min e' table with - | i
      · have := (find_min_eq_none_iff hsort hne).mp hx
        omega
      · exact ⟨i, rfl⟩
    rcases hfm with ⟨i, hfm⟩
    refine ⟨e', i, hpe', ?_, find_min_some_greatest hsort hfm⟩
    unfold get_prd_lvl
    rw [hpe']
    dsimp only
    rw [hfm]

/-- C6 (amended) witness: the base fixture (both experience fields present
and at the first threshold of `T200`). -/
theorem claimC6_level_reads_amended_witness :
    (TableOk T200 ∧ loadText baseText = .ok baseDoc) ∧
    (get_adv_lvl T200 baseDoc).isSome = true ∧
    (get_prd_lvl T200 baseDoc).isSome = true := by
  refine ⟨⟨T200_ok, loadText_baseText⟩, ?_⟩
  have h := claimC6_level_reads_amended T200 T200_ok baseText baseDoc loadText_baseText
    (by
      intro e he
      have h0 : get_adv_exp baseDoc = some 0 := rfl
      rw [h0] at he
      obtain rfl : (0 : Int) = e := Option.some_inj.mp he
      decide)
    ⟨.num 0, 0, rfl, rfl, by decide⟩
  rcases h with ⟨⟨e1, i1, -, ha, -⟩, ⟨e2, i2, -, hp, -⟩⟩
  rw [ha, hp]
  exact ⟨rfl, rfl⟩

/-! ## Claim C3 -/

/-- The text with only a valid `User` record: the avatar id is extractable,
but both the `Character` record (backpack) and the `CharacterSheet` record
are missing. -/
def cx3Text : List Char := userRec

/-- C3 counterexample: the claim's stated order puts the backpack-id step
before the character-sheet step; the code locates the character sheet first.
On `cx3Text` the backpack extraction fails, yet `load` reports the
character-sheet failure, not the backpack failure. -/
theorem claimC3_counterexample :
    get_avatar_id cx3Text = some "AVA" ∧
    get_backpack_id cx3Text "AVA" = none ∧
    loadText cx3Text = .error "Unable to find character sheet" ∧
    ¬ loadText cx3Text = .error "Unable to find the avatar's backpack" := by
  refine ⟨rfl, rfl, rfl, ?_⟩
  intro hc
  rw [show loadText cx3Text = .error "Unable to find character sheet" from rfl] at hc
  exact absurd (Except.error.inj hc) (by decide)

/-- C3 (amended): `load` validates in the code's order — avatar id, then
locate and parse the character-sheet record (with a separate non-object
failure), then the backpack id, then the inventory-store record, then the
gold record, then the adventurer-experience field, then the object-valued
skills field, then the timestamp template — each step producing its own
distinct, named failure, and any failing step aborting construction with no
partial document. -/
theorem claimC3_load_order_amended (text : List Char) :
    (get_avatar_id text = none →
      loadText text = .error "Unable to determine the current avatar") ∧
    (∀ avatar, get_avatar_id text = some avatar →
      (get_json text "CharacterSheet" avatar = none →
        loadText text = .error "Unable to find character sheet") ∧
      (∀ character, get_json text "CharacterSheet" avatar = some character →
        (jIsObj character = false →
          loadText text = .error "Error reading character sheet") ∧
        (jIsObj character = true →
          (get_backpack_id text avatar = none →
            loadText text = .error "Unable to find the avatar's backpack") ∧
          (∀ backpack, get_backpack_id text avatar = some backpack →
            (get_json text "ItemStore" backpack = none →
              loadText text = .error "Unable to find inventory") ∧
            (∀ inventory, get_json text "ItemStore" backpack = some inventory →
              (jIsObj inventory = false →
                loadText text = .error "Error reading inventory") ∧
              (jIsObj inventory = true →
                (get_json text "UserGold" USER_ID = none →
                  loadText text = .error "Unable to find user gold") ∧
                (∀ gold, get_json text "UserGold" USER_ID = some gold →
                  (jIsObj gold = false →
                    loadText text = .error "Error reading user gold") ∧
                  (jIsObj gold = true →
                    ((jget character "ae").bind toI64 = none →
                      loadText text = .error "Unable to parse adventurer experience") ∧
                    (∀ e : Int, (jget character "ae").bind toI64 = some e →
                      (jget character "sk2" = none →
                        loadText text = .error "Unable to find skills") ∧
                      (∀ skills, jget character "sk2" = some skills →
                        (jIsObj skills = false →
                          loadText text = .error "Error reading skills") ∧
                        (jIsObj skills = true →
                          (find_date skills = none →
                            loadText text = .error "Unable to parse the date/time") ∧
                          (∀ date, find_date skills = some date →
                            loadText text = .ok ⟨text, avatar, backpack, character, inventory, gold, date⟩
    )))))))))))) := by
  refine ⟨?_, ?_⟩
  · intro h
    unfold loadText
    rw [h]
  · intro avatar hav
    refine ⟨?_, ?_⟩
    · intro h
      unfold loadText
      rw [hav]
      dsimp only
      rw [h]
    · intro character hcs
      refine ⟨?_, ?_⟩
      · intro h
        unfold loadText
        rw [hav]
        dsimp only
        rw [hcs]
        dsimp only
        rw [h]
        simp
      · intro hco
        refine ⟨?_, ?_⟩
        · intro h
          unfold loadText
          rw [hav]
          dsimp only
          rw [hcs]
          dsimp only
          rw [hco, if_pos rfl]
          rw [h]
        · intro backpack hbp
          refine ⟨?_, ?_⟩
          · intro h
            unfold loadText
            rw [hav]
            dsimp only
            rw [hcs]
            dsimp only
            rw [hco, if_pos rfl]
            rw [hbp]
            dsimp only
            rw [h]
          · intro inventory hin
            refine ⟨?_, ?_⟩
            · intro h
              unfold loadText
              rw [hav]
              dsimp only
              rw [hcs]
              dsimp only
              rw [hco, if_pos rfl]
              rw [hbp]
              dsimp only
              rw [hin]
              dsimp only
              rw [h]
              simp
            · intro hio
              refine ⟨?_, ?_⟩
              · intro h
                unfold loadText
                rw [hav]
                dsimp only
                rw [hcs]
                dsimp only
                rw [hco, if_pos rfl]
                rw [hbp]
                dsimp only
                rw [hin]
                dsimp only
                rw [hio, if_pos rfl]
                rw [h]
              · intro gold hgd
                refine ⟨?_, ?_⟩
                · intro h
                  unfold loadText
                  rw [hav]
                  dsimp only
                  rw [hcs]
                  dsimp only
                  rw [hco, if_pos rfl]
                  rw [hbp]
                  dsimp only
                  rw [hin]
                  dsimp only
                  rw [hio, if_pos rfl]
                  rw [hgd]
                  dsimp only
                  rw [h]
                  simp
                · intro hgo
                  refine ⟨?_, ?_⟩
                  · intro h
                    unfold loadText
                    rw [hav]
                    dsimp only
                    rw [hcs]
                    dsimp only
                    rw [hco, if_pos rfl]
                    rw [hbp]
                    dsimp only
                    rw [hin]
                    dsimp only
                    rw [hio, if_pos rfl]
                    rw [hgd]
                    dsimp only
                    rw [hgo, if_pos rfl]
                    rw [h]
                  · intro e hae
                    refine ⟨?_, ?_⟩
                    · intro h
                      unfold loadText
                      rw [hav]
                      dsimp only
                      rw [hcs]
                      dsimp only
                      rw [hco, if_pos rfl]
                      rw [hbp]
                      dsimp only
                      rw [hin]
                      dsimp only
                      rw [hio, if_pos rfl]
                      rw [hgd]
                      dsimp only
                      rw [hgo, if_pos rfl]
                      rw [hae]
                      dsimp only
                      rw [h]
                    · intro skills hsk
                      refine ⟨?_, ?_⟩
                      · intro h
                        unfold loadText
                        rw [hav]
                        dsimp only
                        rw [hcs]
                        dsimp only
                        rw [hco, if_pos rfl]
                        rw [hbp]
                        dsimp only
                        rw [hin]
                        dsimp only
                        rw [hio, if_pos rfl]
                        rw [hgd]
                        dsimp only
                        rw [hgo, if_pos rfl]
                        rw [hae]
                        dsimp only
                        rw [hsk]
                        dsimp only
                        rw [h]
                        simp
                      · intro hso
                        refine ⟨?_, ?_⟩
                        · intro h
                          unfold loadText
                          rw [hav]
                          dsimp only
                          rw [hcs]
                          dsimp only
                          rw [hco, if_pos rfl]
                          rw [hbp]
                          dsimp only
                          rw [hin]
                          dsimp only
                          rw [hio, if_pos rfl]
                          rw [hgd]
                          dsimp only
                          rw [hgo, if_pos rfl]
                          rw [hae]
                          dsimp only
                          rw [hsk]
                          dsimp only
                          rw [hso, if_pos rfl]
                          rw [h]
                        · intro date hdt
                          unfold loadText
                          rw [hav]
                          dsimp only
                          rw [hcs]
                          dsimp only
                          rw [hco, if_pos rfl]
                          rw [hbp]
                          dsimp only
                          rw [hin]
                          dsimp only
                          rw [hio, if_pos rfl]
                          rw [hgd]
                          dsimp only
                          rw [hgo, if_pos rfl]
                          rw [hae]
                          dsimp only
                          rw [hsk]
                          dsimp only
                          rw [hso, if_pos rfl]
                          rw [hdt]

/-- C3 (amended) witness: on `cx3Text` the avatar step succeeds and the
character-sheet step is the first to fail, with its named error. -/
theorem claimC3_load_order_amended_witness :
    loadText cx3Text = .error "Unable to find character sheet" :=
  ((claimC3_load_order_amended cx3Text).2 "AVA" rfl).1 rfl

/-! ## Claim C4 -/

theorem obj_of_isObj {v : JVal} (h : jIsObj v = true) : ∃ fields, v = .obj fields := by
  cases v with
  | obj fields => exact ⟨fields, rfl⟩
  | null => simp [jIsObj, asObjFields] at h
  | bool b => simp [jIsObj, asObjFields] at h
  | num n => simp [jIsObj, asObjFields] at h
  | fnum q => simp [jIsObj, asObjFields] at h
  | str s => simp [jIsObj, asObjFields] at h
  | arr es => simp [jIsObj, asObjFields] at h

/-- C4: `set_skill_lvl` with level 0 removes the skill entry entirely (a
subsequent get returns `none`); with level in 1..=200 it computes
`(table[lvl-1] as f64 * mul) as i64` and either updates an existing entry's
`"x"` field (leaving its other fields alone) or creates
`{"m": 0, "t": <cached template>, "x": exp}` for a previously-absent id;
levels outside 0..=200 are rejected loudly (`assert!`, modelled `none`). -/
theorem claimC4_skill_set (table : List Int) (d : GameData) (sk : JVal) (id : Nat)
    (mul : Rat) (hch : jIsObj d.character = true)
    (hsk : jget d.character "sk2" = some sk) (hso : jIsObj sk = true)
    (hent : ∀ entry, jget sk (natKey id) = some entry → jIsObj entry = true) :
    (∀ lvl : Int, lvl < 0 ∨ 200 < lvl → set_skill_lvl table d id lvl mul = none) ∧
    (∃ d₀ sk₀, set_skill_lvl table d id 0 mul = some d₀ ∧
      jget d₀.character "sk2" = some sk₀ ∧ jget sk₀ (natKey id) = none ∧
      get_skill_lvl_m table d₀ id mul = none) ∧
    (∀ lvl : Int, 1 ≤ lvl → lvl ≤ 200 →
      ∃ d₁ sk₁, set_skill_lvl table d id lvl mul = some d₁ ∧
        jget d₁.character "sk2" = some sk₁ ∧
        (jget sk (natKey id) = none →
          jget sk₁ (natKey id) = some (.obj [("m", .num 0), ("t", d.date),
            ("x", .num (f64_as_i64 ((table.getD (lvl.toNat - 1) 0 : Rat) * mul)))])) ∧
        (∀ entry, jget sk (natKey id) = some entry →
          ∃ entry', jget sk₁ (natKey id) = some entry' ∧
            jget entry' "x" = some (.num (f64_as_i64
              ((table.getD (lvl.toNat - 1) 0 : Rat) * mul))) ∧
            ∀ k, k ≠ "x" → jget entry' k = jget entry k)) := by
  obtain ⟨fields, rfl⟩ := obj_of_isObj hso
  refine ⟨?_, ?_, ?_⟩
  · intro lvl hl
    unfold set_skill_lvl
    rw [if_neg (by omega)]
  · -- level 0 deletes
    obtain ⟨ch₀, hset₀, -⟩ := jset_some_of_obj "sk2"
      (.obj (removeField fields (natKey id))) hch
    refine ⟨{ d with character := ch₀ }, .obj (removeField fields (natKey id)),
      ?_, jget_jset_self hset₀, ?_, ?_⟩
    · unfold set_skill_lvl
      rw [if_pos (by omega), if_pos rfl]
      unfold remove_skill
      rw [hsk]
      dsimp only [asObjFields]
      rw [hset₀]
    · exact lookupField_removeField_self fields (natKey id)
    · unfold get_skill_lvl_m
      rw [jget_jset_self hset₀]
      dsimp only
      unfold get_skill_lvl get_skill_exp
      rw [show jget (.obj (removeField fields (natKey id))) (natKey id) =
        none from lookupField_removeField_self fields (natKey id)]
  · -- level 1..=200 writes experience
    intro lvl h1 h2
    have hne0 : ¬ (lvl = 0) := by omega
    rcases hx : jget (JVal.obj fields) (natKey id) with - | entry
    · -- previously absent: a fresh entry is created
      obtain ⟨sk₁, hset₁, -⟩ := jset_some_of_obj (natKey id)
        (.obj [("m", .num 0), ("t", d.date),
          ("x", .num (f64_as_i64 ((table.getD (lvl.toNat - 1) 0 : Rat) * mul)))])
        (show jIsObj (JVal.obj fields) = true from rfl)
      obtain ⟨ch₁, hset₂, -⟩ := jset_some_of_obj "sk2" sk₁ hch
      refine ⟨{ d with character := ch₁ }, sk₁, ?_, jget_jset_self hset₂, ?_, ?_⟩
      · unfold set_skill_lvl
        rw [if_pos (by omega), if_neg hne0]
        unfold set_skill_exp
        rw [hsk]
        dsimp only
        rw [hx]
        dsimp only
        rw [hset₁]
        dsimp only
        rw [hset₂]
      · intro _
        exact jget_jset_self hset₁
      · intro entry hentry
        exact absurd hentry (by simp)
    · -- existing entry: its "x" field is updated
      have hentobj := hent entry hx
      obtain ⟨entry', hsete, -⟩ := jset_some_of_obj "x"
        (.num (f64_as_i64 ((table.getD (lvl.toNat - 1) 0 : Rat) * mul))) hentobj
      obtain ⟨sk₁, hset₁, -⟩ := jset_some_of_obj (natKey id) entry'
        (show jIsObj (JVal.obj fields) = true from rfl)
      obtain ⟨ch₁, hset₂, -⟩ := jset_some_of_obj "sk2" sk₁ hch
      refine ⟨{ d with character := ch₁ }, sk₁, ?_, jget_jset_self hset₂, ?_, ?_⟩
      · unfold set_skill_lvl
        rw [if_pos (by omega), if_neg hne0]
        unfold set_skill_exp
        rw [hsk]
        dsimp only
        rw [hx]
        dsimp only
        rw [hsete]
        dsimp only
        rw [hset₁]
        dsimp only
        rw [hset₂]
      · intro hc
        exact absurd hc (by simp)
      · intro entry₀ hentry₀
        obtain rfl : entry = entry₀ := Option.some_inj.mp hentry₀
        refine ⟨entry', jget_jset_self hset₁, jget_jset_self hsete, ?_⟩
        intro k hk
        exact jget_jset_other hsete hk

/-- C4 witness: out-of-range rejection on the concrete document. -/
theorem claimC4_skill_set_witness :
    set_skill_lvl T200 baseDoc 7 201 1 = none := by
  have h := claimC4_skill_set T200 baseDoc
    (.obj [("7", .obj [("m", .num 0), ("t", .num 5), ("x", .num 0)])]) 7 1
    rfl rfl rfl (by
      intro entry he
      rw [show jget (JVal.obj [("7", JVal.obj [("m", JVal.num 0), ("t", JVal.num 5),
        ("x", JVal.num 0)])]) (natKey 7) = some (JVal.obj [("m", JVal.num 0),
        ("t", JVal.num 5), ("x", JVal.num 0)]) from rfl] at he
      obtain rfl := Option.some_inj.mp he
      rfl)
  exact h.1 201 (Or.inr (by norm_num))

/-! ## Claim C8 -/

/-- C8: the locator uses first-match, case-sensitive substring search scoped
to the remaining tail after each match — collection marker, then record
marker, then the terminating record-end marker — the payload being the text
strictly between the record marker's end and the terminator's start; if any
of the three markers is absent no payload region exists (the `some` case is
exactly the stated decomposition), and `get_json` is that locator followed
by the JSON parse. -/
theorem claimC8_locator (text : List Char) (c id : String) :
    (∀ p, locatePayload text c id = some p ↔
      ∃ a b rest : List Char,
        text = a ++ collection_tag c ++ b ++ record_tag id ++ p ++ record_end ++ rest ∧
        firstOccurAt (collection_tag c) text a.length ∧
        firstOccurAt (record_tag id)
          (b ++ record_tag id ++ p ++ record_end ++ rest) b.length ∧
        firstOccurAt record_end (p ++ record_end ++ rest) p.length) ∧
    get_json text c id = (locatePayload text c id).bind parseJson :=
  ⟨fun _ => locatePayload_eq_some_iff, get_json_eq text c id⟩

/-- C8 witness: the concrete `UserGold` payload of the fixture text, with its
decomposition obtained through the theorem. -/
theorem claimC8_locator_witness :
    ∃ a b rest : List Char,
      baseText = a ++ collection_tag "UserGold" ++ b ++ record_tag USER_ID ++
        ("\x7b\"g\":1000\x7d").data ++ record_end ++ rest ∧
      firstOccurAt (collection_tag "UserGold") baseText a.length ∧
      firstOccurAt (record_tag USER_ID)
        (b ++ record_tag USER_ID ++ ("\x7b\"g\":1000\x7d").data ++ record_end ++ rest)
        b.length ∧
      firstOccurAt record_end
        (("\x7b\"g\":1000\x7d").data ++ record_end ++ rest)
        ("\x7b\"g\":1000\x7d").data.length :=
  ((claimC8_locator baseText "UserGold" USER_ID).1 ("\x7b\"g\":1000\x7d").data).mp rfl

/-! ## Claim C1 -/

/-- One splice of `store_as`: it succeeds, the output is a prefix of the
input, then the freshly serialized JSON, then a suffix of the input, and the
replaced slice `[n, m)` is exactly the payload region the locator finds in
that same input. -/
def spliceFrame (src : List Char) (c id : String) (v : JVal) (dst : List Char) : Prop :=
  set_json src c id v = some dst ∧
  ∃ n m, n ≤ m ∧ m ≤ src.length ∧
    dst = src.take n ++ serialize v ++ src.drop m ∧
    locatePayload src c id = some ((src.drop n).take (m - n))

/-- C1: whenever `store`/`store_as` produces output text, the three payload
regions are replaced in sequence — character sheet, then inventory store,
then gold — each splice locating its region against the text already
containing the prior replacements, and each splice keeping every byte
outside its located payload region identical to its input text. -/
theorem claimC1_store_frame (d : GameData) (out : List Char)
    (h : storeText d = some out) :
    ∃ t₁ t₂, spliceFrame d.text "CharacterSheet" d.avatar d.character t₁ ∧
      spliceFrame t₁ "ItemStore" d.backpack d.inventory t₂ ∧
      spliceFrame t₂ "UserGold" USER_ID d.gold out := by
  unfold storeText at h
  rcases h1 : set_json d.text "CharacterSheet" d.avatar d.character with - | t₁ <;>
    rw [h1] at h <;> dsimp only at h
  · exact absurd h (by simp)
  rcases h2 : set_json t₁ "ItemStore" d.backpack d.inventory with - | t₂ <;>
    rw [h2] at h <;> dsimp only at h
  · exact absurd h (by simp)
  rcases h3 : set_json t₂ "UserGold" USER_ID d.gold with - | t₃ <;>
    rw [h3] at h <;> dsimp only at h
  · exact absurd h (by simp)
  obtain rfl : t₃ = out := Option.some_inj.mp h
  exact ⟨t₁, t₂, ⟨h1, set_json_frame h1⟩, ⟨h2, set_json_frame h2⟩,
    ⟨h3, set_json_frame h3⟩⟩

/-- C1 witness: storing the loaded fixture document. -/
theorem claimC1_store_frame_witness :
    storeText baseDoc = some baseText ∧
    ∃ t₁ t₂, spliceFrame baseDoc.text "CharacterSheet" baseDoc.avatar baseDoc.character t₁ ∧
      spliceFrame t₁ "ItemStore" baseDoc.backpack baseDoc.inventory t₂ ∧
      spliceFrame t₂ "UserGold" USER_ID baseDoc.gold baseText :=
  ⟨storeText_baseDoc, claimC1_store_frame baseDoc baseText storeText_baseDoc⟩

/-! ## Claim C10 -/

/-- C10: when the gold field holds a numeric value (or digit-string) that
parses to a 64-bit value outside the `i32` range, `get_gold` does not return
`none`; it returns that value reduced modulo 2^32 and reinterpreted as a
signed 32-bit integer (`i64_as_i32`, the two's-complement truncation of
`as i32`). -/
theorem claimC10_gold_truncation (d : GameData) (v : JVal) (n : Int)
    (h1 : jget d.gold "g" = some v) (h2 : toI64 v = some n)
    (h3 : n < I32_MIN ∨ I32_MAX < n) :
    get_gold d = some (i64_as_i32 n) ∧ get_gold d ≠ none := by
  unfold get_gold
  rw [h1]
  dsimp only
  rw [h2]
  exact ⟨rfl, by simp⟩

def cx10Doc : GameData :=
  { text := [], avatar := "", backpack := "", character := .null,
    inventory := .null, gold := .obj [("g", .num (2 ^ 31))], date := .null }

/-- C10 witness: gold = 2^31 (just above `i32::MAX`) wraps to `-2^31`. -/
theorem claimC10_gold_truncation_witness :
    get_gold cx10Doc = some (-(2 ^ 31)) ∧ get_gold cx10Doc ≠ none := by
  have h := claimC10_gold_truncation cx10Doc (.num (2 ^ 31)) (2 ^ 31) rfl (by decide)
    (Or.inr (by decide))
  rw [show i64_as_i32 (2 ^ 31) = -(2 ^ 31) by decide] at h
  exact h

/-! ## Claim C9 -/

theorem rfindSlash_eq_none_iff {cs : List Char} :
    rfindSlash cs = none ↔ '/' ∉ cs := by
  induction cs with
  | nil => simp [rfindSlash]
  | cons c rest ih =>
    rw [rfindSlash]
    rcases hr : rfindSlash rest with - | k
    · dsimp only
      by_cases hc : c = '/'
      · rw [if_pos hc]
        subst hc
        simp
      · rw [if_neg hc]
        constructor
        · intro _
          simp only [List.mem_cons, not_or]
          exact ⟨fun h => hc h.symm, ih.mp hr⟩
        · intro _
          rfl
    · dsimp only
      constructor
      · intro h
        simp at h
      · intro h
        exfalso
        have hmem : '/' ∈ rest := by
          by_contra hnm
          rw [← ih] at hnm
          rw [hnm] at hr
          exact absurd hr (by simp)
        simp only [List.mem_cons, not_or] at h
        exact h.2 hmem

theorem rfindSlash_eq_some_iff {cs : List Char} {i : Nat} :
    rfindSlash cs = some i ↔
      ∃ pre suf, cs = pre ++ '/' :: suf ∧ i = pre.length ∧ '/' ∉ suf := by
  induction cs generalizing i with
  | nil =>
    simp only [rfindSlash]
    constructor
    · intro h
      simp at h
    · rintro ⟨pre, suf, hdec, -, -⟩
      exact absurd hdec.symm (by simp)
  | cons c rest ih =>
    rw [rfindSlash]
    rcases hr : rfindSlash rest with - | k
    · have hnone : '/' ∉ rest := rfindSlash_eq_none_iff.mp hr
      dsimp only
      by_cases hc : c = '/'
      · rw [if_pos hc]
        subst hc
        constructor
        · intro h
          obtain rfl : (0 : Nat) = i := Option.some_inj.mp h
          exact ⟨[], rest, rfl, rfl, hnone⟩
        · rintro ⟨pre, suf, hdec, rfl, hnot⟩
          cases pre with
          | nil => rfl
          | cons p ps =>
            exfalso
            have : rest = ps ++ '/' :: suf := (List.cons.inj hdec).2
            exact hnone (by simp [this])
      · rw [if_neg hc]
        constructor
        · intro h
          simp at h
        · rintro ⟨pre, suf, hdec, rfl, hnot⟩
          exfalso
          cases pre with
          | nil => exact hc (List.cons.inj hdec).1
          | cons p ps =>
            have : rest = ps ++ '/' :: suf := (List.cons.inj hdec).2
            exact hnone (by simp [this])
    · dsimp only
      obtain ⟨pre', suf', hdec', hk, hnot'⟩ := ih.mp hr
      constructor
      · intro h
        obtain rfl : k + 1 = i := Option.some_inj.mp h
        exact ⟨c :: pre', suf', by simp [hdec'], by simp [hk], hnot'⟩
      · rintro ⟨pre, suf, hdec, rfl, hnot⟩
        cases pre with
        | nil =>
          exfalso
          have : rest = suf := (List.cons.inj hdec).2
          subst this
          exact hnot (by simp [hdec'])
        | cons p ps =>
          have hrest : rest = ps ++ '/' :: suf := (List.cons.inj hdec).2
          have := ih.mpr ⟨ps, suf, hrest, rfl, hnot⟩
          rw [hr] at this
          obtain rfl : k = ps.length := Option.some_inj.mp this
          simp

theorem get_name_some_iff {s nm : String} :
    get_name (some (.str s)) = some nm ↔
      ∃ pre, s.data = pre ++ '/' :: nm.data ∧ '/' ∉ nm.data := by
  constructor
  · intro h
    unfold get_name at h
    dsimp only at h
    rcases hr : rfindSlash s.data with - | pos <;> rw [hr] at h <;> dsimp only at h
    · exact absurd h (by simp)
    obtain ⟨pre, suf, hdec, rfl, hnot⟩ := rfindSlash_eq_some_iff.mp hr
    have hdrop : s.data.drop (pre.length + 1) = suf := by
      rw [hdec, show pre ++ '/' :: suf = (pre ++ ['/']) ++ suf by simp,
        show pre.length + 1 = (pre ++ ['/']).length by simp]
      exact List.drop_left _ _
    rw [hdrop] at h
    obtain rfl : String.mk suf = nm := Option.some_inj.mp h
    exact ⟨pre, hdec, hnot⟩
  · rintro ⟨pre, hdec, hnot⟩
    have hr : rfindSlash s.data = some pre.length :=
      rfindSlash_eq_some_iff.mpr ⟨pre, nm.data, hdec, rfl, hnot⟩
    have hdrop : s.data.drop (pre.length + 1) = nm.data := by
      rw [hdec, show pre ++ '/' :: nm.data = (pre ++ ['/']) ++ nm.data by simp,
        show pre.length + 1 = (pre ++ ['/']).length by simp]
      exact List.drop_left _ _
    have hval : get_name (some (.str s)) =
        some (String.mk (s.data.drop (pre.length + 1))) := by
      unfold get_name
      dsimp only
      rw [hr]
    rw [hval, hdrop]

/-- C9 counterexample: an inventory entry whose name-source field is the
string `"Sword"` (no `'/'`) and whose count field is present and readable
is nevertheless dropped from the read projection, so the projection does
not include "exactly those entries having both a name-source string and a
count". -/
def cx9Inner : JVal := .obj [("an", .str "Sword"), ("qn", .num 1)]

def cx9Doc : GameData :=
  { text := [], avatar := "", backpack := "", character := .null,
    inventory := .obj [("in", .obj [("I1", .obj [("in", cx9Inner)])])],
    gold := .null, date := .null }

theorem claimC9_counterexample :
    jget cx9Inner "an" = some (.str "Sword") ∧
    jget cx9Inner "qn" = some (.num 1) ∧
    (asU64 (.num 1)).isSome = true ∧
    get_inventory_items cx9Doc = some [] :=
  ⟨rfl, rfl, rfl, rfl⟩

/-- C9 (amended): the inventory read projection includes exactly those
entries of the raw item map having an inner wrapper, a name-source string
containing at least one `'/'`, and a count readable as an unsigned integer;
an entry missing any of these is silently dropped rather than failing the
whole read, durability is optional per item, and each included item's
display name is the substring of the name-source after the last `'/'`. -/
theorem claimC9_inventory_projection_amended :
    (∀ s nm : String, get_name (some (.str s)) = some nm ↔
      ∃ pre, s.data = pre ++ '/' :: nm.data ∧ '/' ∉ nm.data) ∧
    (∀ (k : String) (v : JVal), (∃ it, projectEntry (k, v) = some it) ↔
      ∃ inner s cval, jget v "in" = some inner ∧
        jget inner "an" = some (.str s) ∧
        (∃ nm, get_name (some (.str s)) = some nm) ∧
        jget inner "qn" = some cval ∧ (asU64 cval).isSome = true) ∧
    (∀ (k : String) (v : JVal) (it : Item), projectEntry (k, v) = some it →
      it.id = k ∧ ∃ inner, jget v "in" = some inner ∧
        get_name (jget inner "an") = some it.name ∧
        (jget inner "qn").bind asU64 = some it.cnt ∧
        it.dur = durNew inner ∧ it.bag = (jget inner "bag").isSome) ∧
    (∀ (d : GameData) (v : JVal) (fields : List (String × JVal)),
      jget d.inventory "in" = some v → asObjFields v = some fields →
      get_inventory_items d = some (fields.filterMap projectEntry)) := by
  refine ⟨fun s nm => get_name_some_iff, ?_, ?_, ?_⟩
  · intro k v
    constructor
    · rintro ⟨it, h⟩
      unfold projectEntry at h
      rcases hin : jget v "in" with - | inner <;> rw [hin] at h <;> dsimp only at h
      · exact absurd h (by simp)
      rcases hnm : get_name (jget inner "an") with - | nm <;> rw [hnm] at h <;>
        dsimp only at h
      · exact absurd h (by simp)
      rcases hcv : jget inner "an" with - | av
      · rw [hcv] at hnm
        exact absurd hnm (by simp [get_name])
      rcases hcn : (jget inner "qn").bind asU64 with - | cnt <;> rw [hcn] at h <;>
        dsimp only at h
      · exact absurd h (by simp)
      rcases hq : jget inner "qn" with - | qv
      · rw [hq, Option.none_bind] at hcn
        exact absurd hcn (by simp)
      rw [hq, Option.some_bind] at hcn
      have hstr : ∃ s, av = .str s := by
        rcases av with - | b | n | q' | s | es | fs
        · rw [hcv] at hnm
          exact absurd hnm (by simp [get_name])
        · rw [hcv] at hnm
          exact absurd hnm (by simp [get_name])
        · rw [hcv] at hnm
          exact absurd hnm (by simp [get_name])
        · rw [hcv] at hnm
          exact absurd hnm (by simp [get_name])
        · exact ⟨s, rfl⟩
        · rw [hcv] at hnm
          exact absurd hnm (by simp [get_name])
        · rw [hcv] at hnm
          exact absurd hnm (by simp [get_name])
      obtain ⟨s, rfl⟩ := hstr
      rw [hcv] at hnm
      exact ⟨inner, s, qv, rfl, hcv, ⟨nm, hnm⟩, hq, by simp [hcn]⟩
    · rintro ⟨inner, s, cval, hin, han, ⟨nm, hnm⟩, hqn, hcnt⟩
      obtain ⟨cnt, hcnt'⟩ := Option.isSome_iff_exists.mp hcnt
      refine ⟨⟨k, nm, cnt, durNew inner, (jget inner "bag").isSome⟩, ?_⟩
      unfold projectEntry
      rw [hin]
      dsimp only
      rw [han, hnm]
      dsimp only
      rw [hqn, Option.some_bind, hcnt']
  · intro k v it h
    unfold projectEntry at h
    rcases hin : jget v "in" with - | inner <;> rw [hin] at h <;> dsimp only at h
    · exact absurd h (by simp)
    rcases hnm : get_name (jget inner "an") with - | nm <;> rw [hnm] at h <;>
      dsimp only at h
    · exact absurd h (by simp)
    rcases hcn : (jget inner "qn").bind asU64 with - | cnt <;> rw [hcn] at h <;>
      dsimp only at h
    · exact absurd h (by simp)
    obtain rfl : (⟨k, nm, cnt, durNew inner, (jget inner "bag").isSome⟩ : Item) = it :=
      Option.some_inj.mp h
    exact ⟨rfl, inner, rfl, hnm, hcn, rfl, rfl⟩
  · intro d v fields h1 h2
    unfold get_inventory_items
    rw [h1, Option.some_bind, h2]

/-- C9 (amended) witness: the spec's own example, obtained through the
theorem: `"Items/Weapons/LongSword"` yields display name `"LongSword"`. -/
theorem claimC9_inventory_projection_amended_witness :
    get_name (some (.str "Items/Weapons/LongSword")) = some "LongSword" :=
  (claimC9_inventory_projection_amended.1 "Items/Weapons/LongSword" "LongSword").mpr
    ⟨"Items/Weapons".data, by decide, by decide⟩

/-! ## Claim C7: helpers -/

theorem i64_as_i32_of_i32_range {g : Int} (h1 : I32_MIN ≤ g) (h2 : g ≤ I32_MAX) :
    i64_as_i32 g = g := by
  unfold i64_as_i32
  simp only [I32_MIN] at h1
  simp only [I32_MAX] at h2
  have hlo : (0 : Int) ≤ g + 2 ^ 31 := by omega
  have hhi : g + 2 ^ 31 < 2 ^ 32 := by omega
  rw [Int.emod_eq_of_lt hlo hhi]
  omega

theorem toI64_num_of_i32_range {g : Int} (h1 : I32_MIN ≤ g) (h2 : g ≤ I32_MAX) :
    toI64 (.num g) = some g := by
  have hdef : toI64 (.num g) = if I64_MIN ≤ g ∧ g ≤ I64_MAX then some g else none := rfl
  rw [hdef, if_pos]
  simp only [I32_MIN] at h1
  simp only [I32_MAX] at h2
  simp only [I64_MIN, I64_MAX]
  omega

theorem skipWs_cons_of_not_ws {c : Char} {rest : List Char} (h : isJsonWs c = false) :
    skipWs (c :: rest) = c :: rest := by
  simp [skipWs, List.dropWhile_cons, h]

theorem digit_not_ws {c : Char} (h : c.isDigit = true) : isJsonWs c = false := by
  rcases hx : isJsonWs c with - | -
  · rfl
  · exfalso
    simp only [isJsonWs, Bool.or_eq_true, decide_eq_true_eq] at hx
    rcases hx with ((rfl | rfl) | rfl) | rfl <;> simp [Char.isDigit] at h

theorem digit_ne_minus {c : Char} (h : c.isDigit = true) : c ≠ '-' := by
  intro hc
  subst hc
  simp [Char.isDigit] at h

theorem digit_ne_lt {c : Char} (h : c.isDigit = true) : c ≠ '<' := by
  intro hc
  subst hc
  simp [Char.isDigit] at h

theorem natRepr_head_digit {n : Nat} {c : Char} {t : List Char}
    (h : natRepr n = c :: t) : c.isDigit = true := by
  have := natRepr_all_digits n
  rw [h] at this
  exact this c (List.mem_cons_self c t)

theorem intRepr_head (g : Int) :
    ∃ c t, intRepr g = c :: t ∧ (c.isDigit = true ∨ c = '-') := by
  unfold intRepr
  by_cases hneg : g < 0
  · rw [if_pos hneg]
    exact ⟨'-', natRepr (-g).toNat, rfl, Or.inr rfl⟩
  · rw [if_neg hneg]
    rcases hx : natRepr g.toNat with - | ⟨c, t⟩
    · exact absurd hx (natRepr_ne_nil _)
    · exact ⟨c, t, rfl, Or.inl (natRepr_head_digit hx)⟩

theorem intRepr_chars {g : Int} {c : Char} (h : c ∈ intRepr g) :
    c.isDigit = true ∨ c = '-' := by
  unfold intRepr at h
  by_cases hneg : g < 0
  · rw [if_pos hneg] at h
    rcases List.mem_cons.mp h with rfl | h2
    · exact Or.inr rfl
    · exact Or.inl (natRepr_all_digits _ c h2)
  · rw [if_neg hneg] at h
    exact Or.inl (natRepr_all_digits _ c h)

theorem lt_not_mem_intRepr (g : Int) : '<' ∉ intRepr g := by
  intro h
  rcases intRepr_chars h with hd | hm
  · simp [Char.isDigit] at hd
  · exact absurd hm (by decide)

theorem skipWs_intRepr (g : Int) (rest : List Char) :
    skipWs (intRepr g ++ rest) = intRepr g ++ rest := by
  obtain ⟨c, t, hdec, hc⟩ := intRepr_head g
  rw [hdec]
  show skipWs (c :: (t ++ rest)) = c :: (t ++ rest)
  refine skipWs_cons_of_not_ws ?_
  rcases hc with hd | rfl
  · exact digit_not_ws hd
  · rfl

theorem takeWhile_all_append {p : Char → Bool} {u v : List Char}
    (hu : ∀ c ∈ u, p c = true) (hv : ∀ c t, v = c :: t → p c = false) :
    (u ++ v).takeWhile p = u ∧ (u ++ v).dropWhile p = v := by
  induction u with
  | nil =>
    simp only [List.nil_append]
    cases v with
    | nil => simp
    | cons c t =>
      have := hv c t rfl
      simp [List.takeWhile_cons, List.dropWhile_cons, this]
  | cons c u' ih =>
    have hc := hu c (List.mem_cons_self c u')
    have ih' := ih (fun x hx => hu x (List.mem_cons_of_mem c hx))
    simp only [List.cons_append, List.takeWhile_cons, List.dropWhile_cons, hc]
    simp [ih'.1, ih'.2]

theorem span_all_append {u v : List Char}
    (hu : ∀ c ∈ u, c.isDigit = true) (hv : ∀ c t, v = c :: t → c.isDigit = false) :
    (u ++ v).span Char.isDigit = (u, v) := by
  have h := takeWhile_all_append hu hv
  rw [List.span_eq_take_drop, h.1, h.2]

theorem natRepr_no_leading_zero (n : Nat) :
    ¬((natRepr n).head? = some '0' ∧ (natRepr n).length ≠ 1) := by
  rintro ⟨h0, hlen⟩
  rw [natRepr_eq] at h0 hlen
  by_cases hn : n = 0
  · rw [if_pos hn] at hlen
    exact hlen rfl
  · rw [if_neg hn] at h0
    rw [List.head?_map, List.head?_reverse] at h0
    have hne : Nat.digits 10 n ≠ [] := Nat.digits_ne_nil_iff_ne_zero.mpr hn
    rw [List.getLast?_eq_getLast _ hne] at h0
    simp only [Option.map_some'] at h0
    have hd := Nat.getLast_digit_ne_zero 10 hn
    have hlt : (Nat.digits 10 n).getLast hne < 10 :=
      Nat.digits_lt_base (by norm_num) (List.getLast_mem hne)
    exact digitChar_ne_zero_char hlt hd (Option.some.inj h0)

theorem parseNumber_pos_digits (c : Char) (t : List Char)
    (hds : ∀ x ∈ c :: t, x.isDigit = true)
    (hlz : ¬((c :: t).head? = some '0' ∧ (c :: t).length ≠ 1)) (rest : List Char)
    (hv : (charsToNat (c :: t) : Int) ≤ U64_MAX) :
    parseNumber ((c :: t) ++ '\x7d' :: rest) =
      some (.num (charsToNat (c :: t)), '\x7d' :: rest) := by
  have hc : c.isDigit = true := hds c (List.mem_cons_self c t)
  show parseNumber (c :: (t ++ '\x7d' :: rest)) = _
  unfold parseNumber
  rw [List.head?_cons, if_neg (fun h => digit_ne_minus hc (Option.some.inj h))]
  dsimp only
  have hspan : (c :: (t ++ '\x7d' :: rest)).span Char.isDigit = (c :: t, '\x7d' :: rest) := by
    have := span_all_append hds (v := '\x7d' :: rest)
      (fun c' t' h => by injection h with h1 _; rw [h1.symm]; rfl)
    simpa using this
  rw [hspan]
  dsimp only
  rw [if_neg (List.cons_ne_nil c t), if_neg hlz]
  show finishNumber false (c :: t) none ('\x7d' :: rest) = _
  have hfin : finishNumber false (c :: t) none ('\x7d' :: rest) =
      (if I64_MIN ≤ (charsToNat (c :: t) : Int) ∧ (charsToNat (c :: t) : Int) ≤ U64_MAX
       then some (.num (charsToNat (c :: t)), '\x7d' :: rest)
       else some (.fnum ((charsToNat (c :: t) : Int) : Rat), '\x7d' :: rest)) := rfl
  have hlo : I64_MIN ≤ (charsToNat (c :: t) : Int) :=
    le_trans (by simp only [I64_MIN]; norm_num) (Int.natCast_nonneg _)
  rw [hfin, if_pos ⟨hlo, hv⟩]

theorem parseNumber_neg_digits (c : Char) (t : List Char)
    (hds : ∀ x ∈ c :: t, x.isDigit = true)
    (hlz : ¬((c :: t).head? = some '0' ∧ (c :: t).length ≠ 1)) (rest : List Char)
    (hv : I64_MIN ≤ -(charsToNat (c :: t) : Int)) :
    parseNumber ('-' :: ((c :: t) ++ '\x7d' :: rest)) =
      some (.num (-(charsToNat (c :: t))), '\x7d' :: rest) := by
  unfold parseNumber
  rw [if_pos (show ('-' :: ((c :: t) ++ '\x7d' :: rest)).head? = some '-' from rfl)]
  dsimp only [List.tail_cons]
  have hspan : ((c :: t) ++ '\x7d' :: rest).span Char.isDigit = (c :: t, '\x7d' :: rest) :=
    span_all_append hds (fun c' t' h => by injection h with h1 _; rw [h1.symm]; rfl)
  rw [hspan]
  dsimp only
  rw [if_neg (List.cons_ne_nil c t), if_neg hlz]
  show finishNumber true (c :: t) none ('\x7d' :: rest) = _
  have hfin : finishNumber true (c :: t) none ('\x7d' :: rest) =
      (if I64_MIN ≤ -(charsToNat (c :: t) : Int) ∧ -(charsToNat (c :: t) : Int) ≤ U64_MAX
       then some (.num (-(charsToNat (c :: t))), '\x7d' :: rest)
       else some (.fnum ((-(charsToNat (c :: t)) : Int) : Rat), '\x7d' :: rest)) := rfl
  have hhi : -(charsToNat (c :: t) : Int) ≤ U64_MAX := by
    have := Int.natCast_nonneg (charsToNat (c :: t))
    simp only [U64_MAX]
    omega
  rw [hfin, if_pos ⟨hv, hhi⟩]

theorem parseNumber_intRepr (g : Int) (h1 : I32_MIN ≤ g) (h2 : g ≤ I32_MAX)
    (rest : List Char) :
    parseNumber (intRepr g ++ '\x7d' :: rest) = some (.num g, '\x7d' :: rest) := by
  simp only [I32_MIN] at h1
  simp only [I32_MAX] at h2
  unfold intRepr
  by_cases hneg : g < 0
  · rw [if_pos hneg]
    rcases hds : natRepr (-g).toNat with - | ⟨c, t⟩
    · exact absurd hds (natRepr_ne_nil _)
    · have hall : ∀ x ∈ c :: t, x.isDigit = true := by
        rw [← hds]; exact natRepr_all_digits _
      have hlz := natRepr_no_leading_zero (-g).toNat
      rw [hds] at hlz
      have hcn : charsToNat (c :: t) = (-g).toNat := by
        rw [← hds]; exact charsToNat_natRepr _
      have hgv : -(charsToNat (c :: t) : Int) = g := by
        rw [hcn, Int.toNat_of_nonneg (by omega)]; omega
      have hrange : I64_MIN ≤ -(charsToNat (c :: t) : Int) := by
        rw [hgv]; simp only [I64_MIN]; omega
      show parseNumber ('-' :: ((c :: t) ++ '\x7d' :: rest)) = _
      rw [parseNumber_neg_digits c t hall hlz rest hrange, hgv]
  · rw [if_neg hneg]
    rcases hds : natRepr g.toNat with - | ⟨c, t⟩
    · exact absurd hds (natRepr_ne_nil _)
    · have hall : ∀ x ∈ c :: t, x.isDigit = true := by
        rw [← hds]; exact natRepr_all_digits _
      have hlz := natRepr_no_leading_zero g.toNat
      rw [hds] at hlz
      have hcn : (charsToNat (c :: t) : Int) = g := by
        rw [← hds, charsToNat_natRepr, Int.toNat_of_nonneg (by omega)]
      have hrange : (charsToNat (c :: t) : Int) ≤ U64_MAX := by
        rw [hcn]; simp only [U64_MAX]; omega
      rw [parseNumber_pos_digits c t hall hlz rest hrange, hcn]

theorem parseValue_number_dispatch (f : Nat) (c : Char) (rest : List Char)
    (hc : c.isDigit = true ∨ c = '-') :
    parseValue (f + 1) (c :: rest) = parseNumber (c :: rest) := by
  have hne : ∀ c' : Char, c'.isDigit = false → (c.isDigit = true → ¬c = c') := by
    intro c' hcd hd he
    rw [he, hcd] at hd
    exact Bool.false_ne_true hd
  have h1 : ¬c = 'n' := by rcases hc with hd | rfl
                           · exact hne 'n' rfl hd
                           · decide
  have h2 : ¬c = 't' := by rcases hc with hd | rfl
                           · exact hne 't' rfl hd
                           · decide
  have h3 : ¬c = 'f' := by rcases hc with hd | rfl
                           · exact hne 'f' rfl hd
                           · decide
  have h4 : ¬c = '"' := by rcases hc with hd | rfl
                           · exact hne '"' rfl hd
                           · decide
  have h5 : ¬c = '[' := by rcases hc with hd | rfl
                           · exact hne '[' rfl hd
                           · decide
  have h6 : ¬c = '\x7b' := by rcases hc with hd | rfl
                              · exact hne '\x7b' rfl hd
                              · decide
  have h7 : c = '-' ∨ c.isDigit := by rcases hc with hd | rfl
                                      · exact Or.inr hd
                                      · exact Or.inl rfl
  unfold parseValue
  dsimp only
  rw [if_neg h1, if_neg h2, if_neg h3, if_neg h4, if_neg h5, if_neg h6, if_pos h7]

theorem parseValue_intRepr (f : Nat) (g : Int) (h1 : I32_MIN ≤ g) (h2 : g ≤ I32_MAX)
    (rest : List Char) :
    parseValue (f + 1) (intRepr g ++ '\x7d' :: rest) = some (.num g, '\x7d' :: rest) := by
  obtain ⟨c, t, hdec, hc⟩ := intRepr_head g
  rw [hdec]
  show parseValue (f + 1) (c :: (t ++ '\x7d' :: rest)) = _
  rw [parseValue_number_dispatch f c _ hc]
  show parseNumber ((c :: t) ++ '\x7d' :: rest) = _
  rw [← hdec]
  exact parseNumber_intRepr g h1 h2 rest

theorem parseFields_gold (pv : List Char → Option (JVal × List Char)) (k : Nat)
    (x : List Char) (hx0 : skipWs (x ++ ['\x7d']) = x ++ ['\x7d'])
    (v : JVal) (hv : pv (x ++ ['\x7d']) = some (v, ['\x7d'])) :
    parseFields pv (k + 1) ('"' :: 'g' :: '"' :: ':' :: (x ++ ['\x7d'])) [] =
      some ([("g", v)], []) := by
  show (match pv (skipWs (x ++ ['\x7d'])) with
    | none => none
    | some (v1, r3) =>
      match skipWs r3 with
      | ',' :: r4 => parseFields pv k (skipWs r4) (setAssoc [] "g" v1)
      | '\x7d' :: r4 => some (setAssoc [] "g" v1, r4)
      | _ => none) = some ([("g", v)], [])
  rw [hx0, hv]
  rfl

theorem parseValue_gold (f : Nat) (x : List Char)
    (hx0 : skipWs (x ++ ['\x7d']) = x ++ ['\x7d'])
    (v : JVal) (hv : parseValue (f + 1) (x ++ ['\x7d']) = some (v, ['\x7d'])) :
    parseValue (f + 1 + 1) ('\x7b' :: '"' :: 'g' :: '"' :: ':' :: (x ++ ['\x7d'])) =
      some (.obj [("g", v)], []) := by
  show (parseFields (parseValue (f + 1))
      (('"' :: 'g' :: '"' :: ':' :: (x ++ ['\x7d'])).length + 1)
      ('"' :: 'g' :: '"' :: ':' :: (x ++ ['\x7d'])) []).map
      (fun p => (JVal.obj p.1, p.2)) = some (.obj [("g", v)], [])
  rw [parseFields_gold (parseValue (f + 1)) _ x hx0 v hv]
  rfl

theorem parseJson_gold (g : Int) (h1 : I32_MIN ≤ g) (h2 : g ≤ I32_MAX) :
    parseJson ('\x7b' :: '"' :: 'g' :: '"' :: ':' :: (intRepr g ++ ['\x7d'])) =
      some (.obj [("g", .num g)]) := by
  have hval : parseValue
      (('\x7b' :: '"' :: 'g' :: '"' :: ':' :: (intRepr g ++ ['\x7d'])).length + 1)
      (skipWs ('\x7b' :: '"' :: 'g' :: '"' :: ':' :: (intRepr g ++ ['\x7d']))) =
      some (.obj [("g", .num g)], []) := by
    rw [show skipWs ('\x7b' :: '"' :: 'g' :: '"' :: ':' :: (intRepr g ++ ['\x7d'])) =
        '\x7b' :: '"' :: 'g' :: '"' :: ':' :: (intRepr g ++ ['\x7d']) from rfl]
    exact parseValue_gold ((intRepr g ++ ['\x7d']).length + 4) _ (skipWs_intRepr g ['\x7d'])
      _ (parseValue_intRepr _ g h1 h2 [])
  unfold parseJson
  rw [hval]
  rfl

/-- The fixture text with an arbitrary gold amount in place of `1000`. -/
def gText (g : Int) : List Char := goldA ++ intRepr g ++ goldB

/-- The gold section `{"g": g}`. -/
def gVal (g : Int) : JVal := .obj [("g", .num g)]

/-- `baseDoc` after `set_gold g`. -/
def setDoc (g : Int) : GameData :=
  { text := baseText, avatar := "AVA", backpack := "BP", character := chVal,
    inventory := invVal, gold := gVal g, date := .num 5 }

/-- The document `loadText` builds from `gText g`. -/
def gDoc (g : Int) : GameData :=
  { text := gText g, avatar := "AVA", backpack := "BP", character := chVal,
    inventory := invVal, gold := gVal g, date := .num 5 }

theorem serialize_gVal (g : Int) :
    serialize (gVal g) = ("\x7b\"g\":").data ++ intRepr g ++ ("\x7d").data := rfl

theorem gPayload_cons (g : Int) :
    ("\x7b\"g\":").data ++ intRepr g ++ ("\x7d").data =
      '\x7b' :: '"' :: 'g' :: '"' :: ':' :: (intRepr g ++ ['\x7d']) := rfl

theorem ugOpen_decomp : ugOpen = collection_tag "UserGold" ++ record_tag USER_ID := rfl

theorem goldB_decomp : goldB = ("\x7d").data ++ record_end ++ ("</collection>").data := rfl

theorem set_json_baseText_cs : set_json baseText "CharacterSheet" "AVA" chVal =
    some baseText := rfl

theorem set_json_baseText_inv : set_json baseText "ItemStore" "BP" invVal =
    some baseText := rfl

theorem set_json_baseText_gold (g : Int) :
    set_json baseText "UserGold" USER_ID (gVal g) =
      some ((userRec ++ charRec ++ csRec ++ invRec ++ ugOpen) ++ serialize (gVal g) ++
        ("</record></collection>").data) := rfl

theorem locPayload_goldA_user :
    locatePayload goldA "User" USER_ID = some (("\x7b\"dc\":\"AVA\"\x7d").data) := rfl

theorem locPayload_goldA_char :
    locatePayload goldA "Character" "AVA" = some (("\x7b\"mainbp\":\"BP\"\x7d").data) := rfl

theorem locPayload_goldA_cs :
    locatePayload goldA "CharacterSheet" "AVA" =
      some (("\x7b\"ae\":0,\"pe\":0,\"sk2\":\x7b\"7\":\x7b\"m\":0,\"t\":5,\"x\":0\x7d\x7d\x7d").data) := rfl

theorem locPayload_goldA_inv :
    locatePayload goldA "ItemStore" "BP" = some (("\x7b\"in\":\x7b\x7d\x7d").data) := rfl

theorem findSub_goldA_ug : findSub goldA (collection_tag "UserGold") =
    some (userRec ++ charRec ++ csRec ++ invRec).length := rfl

theorem occursAt_append_middle (p re rest : List Char) :
    occursAt re (p ++ re ++ rest) p.length := by
  unfold occursAt
  rw [List.append_assoc, List.drop_left]
  exact List.prefix_append _ _

theorem occursAt_head_nil (rt t1 t2 t3 : List Char) :
    occursAt rt (([] : List Char) ++ rt ++ t1 ++ t2 ++ t3) 0 := by
  unfold occursAt
  simp only [List.nil_append, List.append_assoc, List.drop_zero]
  exact List.prefix_append _ _

theorem not_occursAt_middle {c : Char} {pat' : List Char} (p rest : List Char)
    (hc : c ∉ p) {j : Nat} (hj : j < p.length) :
    ¬ occursAt (c :: pat') (p ++ (c :: pat') ++ rest) j := by
  rw [List.append_assoc]
  exact not_occursAt_of_head_notMem hc hj

theorem lt_not_mem_gPayload (g : Int) :
    '<' ∉ ("\x7b\"g\":").data ++ intRepr g ++ ("\x7d").data := by
  intro h
  rcases List.mem_append.mp h with h1 | h2
  · rcases List.mem_append.mp h1 with h3 | h4
    · exact absurd h3 (by decide)
    · exact lt_not_mem_intRepr g h4
  · exact absurd h2 (by decide)

theorem locatePayload_gText (g : Int) :
    locatePayload (gText g) "UserGold" USER_ID =
      some (("\x7b\"g\":").data ++ intRepr g ++ ("\x7d").data) := by
  refine locatePayload_eq_some_iff.mpr
    ⟨userRec ++ charRec ++ csRec ++ invRec, [], ("</collection>").data, ?_, ?_, ?_, ?_⟩
  · show gText g = _
    unfold gText goldA
    rw [ugOpen_decomp, goldB_decomp]
    simp [List.append_assoc]
  · have hbase : firstOccurAt (collection_tag "UserGold") goldA
        (userRec ++ charRec ++ csRec ++ invRec).length :=
      findSub_eq_some_iff.mp findSub_goldA_ug
    have hb : (userRec ++ charRec ++ csRec ++ invRec).length +
        (collection_tag "UserGold").length ≤ goldA.length := by decide
    show firstOccurAt _ (goldA ++ (intRepr g ++ goldB)) _
    exact firstOccurAt_append _ hb hbase
  · refine ⟨occursAt_head_nil _ _ _ _, ?_⟩
    intro j hj
    exact absurd hj (by simp)
  · refine ⟨occursAt_append_middle _ _ _, ?_⟩
    intro j hj
    rw [record_end_cons]
    exact not_occursAt_middle _ _ (lt_not_mem_gPayload g) hj

theorem get_json_gText_user (g : Int) :
    get_json (gText g) "User" USER_ID = some (.obj [("dc", .str "AVA")]) := by
  rw [get_json_eq]
  show (locatePayload (goldA ++ (intRepr g ++ goldB)) "User" USER_ID).bind parseJson = _
  rw [locatePayload_append locPayload_goldA_user]
  rfl

theorem get_json_gText_char (g : Int) :
    get_json (gText g) "Character" "AVA" = some (.obj [("mainbp", .str "BP")]) := by
  rw [get_json_eq]
  show (locatePayload (goldA ++ (intRepr g ++ goldB)) "Character" "AVA").bind parseJson = _
  rw [locatePayload_append locPayload_goldA_char]
  rfl

theorem get_json_gText_cs (g : Int) :
    get_json (gText g) "CharacterSheet" "AVA" = some chVal := by
  rw [get_json_eq]
  show (locatePayload (goldA ++ (intRepr g ++ goldB)) "CharacterSheet" "AVA").bind parseJson = _
  rw [locatePayload_append locPayload_goldA_cs]
  rfl

theorem get_json_gText_inv (g : Int) :
    get_json (gText g) "ItemStore" "BP" = some invVal := by
  rw [get_json_eq]
  show (locatePayload (goldA ++ (intRepr g ++ goldB)) "ItemStore" "BP").bind parseJson = _
  rw [locatePayload_append locPayload_goldA_inv]
  rfl

theorem get_json_gText_gold (g : Int) (h1 : I32_MIN ≤ g) (h2 : g ≤ I32_MAX) :
    get_json (gText g) "UserGold" USER_ID = some (gVal g) := by
  rw [get_json_eq, locatePayload_gText g]
  show parseJson (("\x7b\"g\":").data ++ intRepr g ++ ("\x7d").data) = some (gVal g)
  rw [gPayload_cons g]
  exact parseJson_gold g h1 h2

theorem get_avatar_id_gText (g : Int) : get_avatar_id (gText g) = some "AVA" := by
  unfold get_avatar_id
  rw [get_json_gText_user g]
  rfl

theorem get_backpack_id_gText (g : Int) : get_backpack_id (gText g) "AVA" = some "BP" := by
  unfold get_backpack_id
  rw [get_json_gText_char g]
  rfl

theorem loadText_gText (g : Int) (h1 : I32_MIN ≤ g) (h2 : g ≤ I32_MAX) :
    loadText (gText g) = .ok (gDoc g) := by
  unfold loadText
  rw [get_avatar_id_gText g]
  dsimp only
  rw [get_json_gText_cs g]
  dsimp only
  rw [if_pos (show jIsObj chVal = true from rfl)]
  rw [get_backpack_id_gText g]
  dsimp only
  rw [get_json_gText_inv g]
  dsimp only
  rw [if_pos (show jIsObj invVal = true from rfl)]
  rw [get_json_gText_gold g h1 h2]
  dsimp only
  rw [if_pos (show jIsObj (gVal g) = true from rfl)]
  rw [show (jget chVal "ae").bind toI64 = some 0 from rfl]
  dsimp only
  rw [show jget chVal "sk2" =
    some (.obj [("7", .obj [("m", .num 0), ("t", .num 5), ("x", .num 0)])]) from rfl]
  dsimp only
  rw [if_pos (show jIsObj
    (.obj [("7", .obj [("m", .num 0), ("t", .num 5), ("x", .num 0)])]) = true from rfl)]
  rw [show find_date
    (.obj [("7", .obj [("m", .num 0), ("t", .num 5), ("x", .num 0)])]) = some (.num 5) from rfl]
  rfl

theorem set_gold_baseDoc (g : Int) : set_gold baseDoc g = some (setDoc g) := rfl

theorem storeText_setDoc (g : Int) : storeText (setDoc g) = some (gText g) := by
  unfold storeText
  dsimp only [setDoc]
  rw [set_json_baseText_cs]
  dsimp only
  rw [set_json_baseText_inv]
  dsimp only
  rw [set_json_baseText_gold g]
  dsimp only
  rw [serialize_gVal g]
  unfold gText goldA
  rw [goldB_decomp]
  simp [List.append_assoc]
  rfl

theorem get_gold_eq_of_jget {d : GameData} {g : Int}
    (hg : jget d.gold "g" = some (.num g))
    (h1 : I32_MIN ≤ g) (h2 : g ≤ I32_MAX) : get_gold d = some g := by
  unfold get_gold
  rw [hg]
  dsimp only
  rw [toI64_num_of_i32_range h1 h2]
  dsimp only
  rw [i64_as_i32_of_i32_range h1 h2]

/-- C7: `get_gold` returns `none` when the gold section's `"g"` field is
absent, or present with a non-numeric, non-string value; `set_gold g` always
writes the concrete integer `g` into the field, after which `get_gold`
returns `g` for every `i32` value `g`; and on the fixture save, setting the
gold to `g`, storing, and reloading yields a document whose `get_gold` is
still `g`, the stored text differing from the original only in the gold
digits (`goldA`/`goldB`, every byte outside them, are unchanged). -/
theorem claimC7_gold_roundtrip (g : Int) (h1 : I32_MIN ≤ g) (h2 : g ≤ I32_MAX) :
    (∀ d : GameData, jget d.gold "g" = none → get_gold d = none) ∧
    (∀ (d : GameData) (v : JVal), jget d.gold "g" = some v →
      (∀ n : Int, v ≠ .num n) → (∀ s : String, v ≠ .str s) → get_gold d = none) ∧
    (∀ d d' : GameData, set_gold d g = some d' →
      jget d'.gold "g" = some (.num g) ∧ get_gold d' = some g) ∧
    (set_gold baseDoc g = some (setDoc g) ∧
      get_gold (setDoc g) = some g ∧
      storeText (setDoc g) = some (gText g) ∧
      baseText = goldA ++ ("1000").data ++ goldB ∧
      gText g = goldA ++ intRepr g ++ goldB ∧
      loadText (gText g) = .ok (gDoc g) ∧
      get_gold (gDoc g) = some g) := by
  refine ⟨?_, ?_, ?_, ?_⟩
  · intro d h
    unfold get_gold
    rw [h]
  · intro d v hv hn hs
    unfold get_gold
    rw [hv]
    dsimp only
    cases v with
    | num n => exact absurd rfl (hn n)
    | str s => exact absurd rfl (hs s)
    | null => rfl
    | bool b => rfl
    | fnum q => rfl
    | arr l => rfl
    | obj f => rfl
  · intro d d' h
    unfold set_gold at h
    rcases hjs : jset d.gold "g" (.num g) with - | go <;> rw [hjs] at h <;> dsimp only at h
    · exact absurd h (by simp)
    · have hd' : ({ d with gold := go } : GameData) = d' := Option.some_inj.mp h
      subst hd'
      have hg : jget go "g" = some (.num g) := jget_jset_self hjs
      exact ⟨hg, get_gold_eq_of_jget hg h1 h2⟩
  · exact ⟨set_gold_baseDoc g, get_gold_eq_of_jget rfl h1 h2, storeText_setDoc g,
      rfl, rfl, loadText_gText g h1 h2, get_gold_eq_of_jget rfl h1 h2⟩

/-- Witness for C7 at the spec's own example `g = 2500`. -/
theorem claimC7_gold_roundtrip_witness :
    (I32_MIN ≤ (2500 : Int) ∧ (2500 : Int) ≤ I32_MAX) ∧
    get_gold (setDoc 2500) = some 2500 ∧
    storeText (setDoc 2500) = some (gText 2500) ∧
    loadText (gText 2500) = .ok (gDoc 2500) ∧
    get_gold (gDoc 2500) = some 2500 := by
  have h := claimC7_gold_roundtrip 2500 (by decide) (by decide)
  exact ⟨⟨by decide, by decide⟩, h.2.2.2.2.1, h.2.2.2.2.2.1,
    h.2.2.2.2.2.2.2.2.1, h.2.2.2.2.2.2.2.2.2⟩
